import Mathlib

/-!
# TypedJSON — verification of the spec against the source

Shallow embedding of the TypedJSON facade (`typed-json.ts`, given as
`src/unnamed/part_000`), of the `jsonMember` registration decorator
(`src/v1-experimental/typedjson/json-member.ts`), and of the
serializer/deserializer core.  The serializer, deserializer and metadata
modules are not present under `src/`; those definitions are modelled from
the spec (sections 4.2, 4.3, 4.4, 6) and are marked as such in their doc
comments.  JavaScript machine details are embedded as follows: JS numbers
appearing in the claims are integers and are modelled as `Int`;
constructors (functions) are modelled by the inductive `Ctor`; `Map`
objects are modelled as association lists with JS `Map.set` semantics
(replace the value in place, keep the first insertion position);
`undefined` results are modelled with `Option`/dedicated constructors;
thrown exceptions are modelled with `Except`.
-/

/-- A JavaScript constructor (class) value: the builtin scalar constructors,
the builtin container constructors, the `Object` builtin, and user classes
identified by a numeric id. -/
inductive Ctor where
  | number
  | string
  | boolean
  | array
  | set
  | map
  | object
  | cls (id : Nat)
deriving DecidableEq, Repr

/-- Errors thrown or reported by the library.  The facade only ever
constructs `TypeError`s; the deserializer core may raise generic errors. -/
inductive JSError where
  | typeError (msg : String)
  | error (msg : String)
deriving DecidableEq, Repr

/-- An error handler, as configured through `ITypedJSONSettings.errorHandler`:
it receives the error; `none` means the handler returned normally, and
`some e` means the handler itself threw the exception `e`. -/
abbrev Handler := JSError → Option JSError

/-- A type tag (spec section 3): the statically expected type of a value —
a scalar, a registered class (`object`), or a container with the tags of
its elements.  `arrayT` carries the multi-array dimension count. -/
inductive TypeTag where
  | num
  | str
  | bool
  | object (c : Nat)
  | arrayT (elem : TypeTag) (depth : Nat)
  | setT (elem : TypeTag)
  | mapT (key : TypeTag) (val : TypeTag)
deriving DecidableEq, Repr

/-- A typed runtime value: scalars, `undefined`, an instance of a user class
(with its runtime class id and its ordered own fields), arrays, Sets (in
iteration order) and Maps (as ordered key-value pairs). -/
inductive TValue where
  | num (n : Int)
  | str (s : String)
  | bool (b : Bool)
  | undef
  | inst (c : Nat) (fields : List (String × TValue))
  | arr (xs : List TValue)
  | set (xs : List TValue)
  | map (ps : List (TValue × TValue))

/-- A plain JSON-compatible value, the output of the serializer and the
input of the deserializer (the raw text codec is the external primitive of
spec section 1). -/
inductive PValue where
  | null
  | num (n : Int)
  | str (s : String)
  | bool (b : Bool)
  | arr (xs : List PValue)
  | obj (fields : List (String × PValue))

/-! Structural equality for `TValue` (JS `SameValueZero`, used by `Set` and
`Map`), written by hand because the derive handler does not support nested
inductives. -/

mutual

def tbeq : TValue → TValue → Bool
  | .num a, .num b => a == b
  | .str a, .str b => a == b
  | .bool a, .bool b => a == b
  | .undef, .undef => true
  | .inst c f, .inst c' f' => c == c' && tbeqFields f f'
  | .arr xs, .arr ys => tbeqList xs ys
  | .set xs, .set ys => tbeqList xs ys
  | .map ps, .map qs => tbeqPairs ps qs
  | _, _ => false

def tbeqFields : List (String × TValue) → List (String × TValue) → Bool
  | [], [] => true
  | (k, v) :: f, (k', v') :: f' => k == k' && tbeq v v' && tbeqFields f f'
  | _, _ => false

def tbeqList : List TValue → List TValue → Bool
  | [], [] => true
  | x :: xs, y :: ys => tbeq x y && tbeqList xs ys
  | _, _ => false

def tbeqPairs : List (TValue × TValue) → List (TValue × TValue) → Bool
  | [], [] => true
  | (k, v) :: ps, (k', v') :: qs => tbeq k k' && tbeq v v' && tbeqPairs ps qs
  | _, _ => false

end

theorem tbeqList_iff_of (xs ys : List TValue)
    (hIH : ∀ x ∈ xs, ∀ b, tbeq x b = true ↔ x = b) :
    tbeqList xs ys = true ↔ xs = ys := by
  induction xs generalizing ys with
  | nil => cases ys <;> simp [tbeqList]
  | cons x xs ih =>
    cases ys with
    | nil => simp [tbeqList]
    | cons y ys =>
      simp only [tbeqList, Bool.and_eq_true, List.cons.injEq]
      rw [hIH x (by simp), ih ys (fun x hx b => hIH x (by simp [hx]) b)]

theorem tbeqFields_iff_of (f f' : List (String × TValue))
    (hIH : ∀ p ∈ f, ∀ b, tbeq p.2 b = true ↔ p.2 = b) :
    tbeqFields f f' = true ↔ f = f' := by
  induction f generalizing f' with
  | nil => cases f' <;> simp [tbeqFields]
  | cons p f ih =>
    obtain ⟨k, v⟩ := p
    cases f' with
    | nil => simp [tbeqFields]
    | cons p' f' =>
      obtain ⟨k', v'⟩ := p'
      simp only [tbeqFields, Bool.and_eq_true, List.cons.injEq, Prod.mk.injEq,
        beq_iff_eq, and_assoc]
      rw [hIH (k, v) (by simp) v', ih f' (fun p hp b => hIH p (by simp [hp]) b)]

theorem tbeqPairs_iff_of (ps qs : List (TValue × TValue))
    (hIH : ∀ p ∈ ps, ∀ b, (tbeq p.1 b = true ↔ p.1 = b) ∧ (tbeq p.2 b = true ↔ p.2 = b)) :
    tbeqPairs ps qs = true ↔ ps = qs := by
  induction ps generalizing qs with
  | nil => cases qs <;> simp [tbeqPairs]
  | cons p ps ih =>
    obtain ⟨k, v⟩ := p
    cases qs with
    | nil => simp [tbeqPairs]
    | cons q qs =>
      obtain ⟨k', v'⟩ := q
      simp only [tbeqPairs, Bool.and_eq_true, List.cons.injEq, Prod.mk.injEq, and_assoc]
      rw [(hIH (k, v) (by simp) k').1, (hIH (k, v) (by simp) v').2,
        ih qs (fun p hp b => hIH p (by simp [hp]) b)]

theorem tbeq_iff_eq : ∀ (a b : TValue), tbeq a b = true ↔ a = b := by
  have main : ∀ (n : Nat) (a : TValue), sizeOf a < n → ∀ b, tbeq a b = true ↔ a = b := by
    intro n
    induction n with
    | zero => intro a ha; omega
    | succ n ih =>
      intro a ha b
      cases a with
      | num x => cases b <;> simp [tbeq]
      | str x => cases b <;> simp [tbeq]
      | bool x => cases b <;> simp [tbeq]
      | undef => cases b <;> simp [tbeq]
      | inst c f =>
        have hf : ∀ p ∈ f, sizeOf p.2 < n := by
          intro p hp
          have h1 := List.sizeOf_lt_of_mem hp
          have h2 : sizeOf p.2 < sizeOf p := by
            obtain ⟨x, y⟩ := p; simp only [Prod.mk.sizeOf_spec]; omega
          simp at ha; omega
        have hfields : ∀ f', tbeqFields f f' = true ↔ f = f' :=
          fun f' => tbeqFields_iff_of f f' (fun p hp b => ih p.2 (hf p hp) b)
        cases b <;> simp [tbeq, hfields]
      | arr xs =>
        have hx : ∀ x ∈ xs, sizeOf x < n := by
          intro x hx
          have := List.sizeOf_lt_of_mem hx
          simp at ha; omega
        have hlist : ∀ ys, tbeqList xs ys = true ↔ xs = ys :=
          fun ys => tbeqList_iff_of xs ys (fun x hmem b => ih x (hx x hmem) b)
        cases b <;> simp [tbeq, hlist]
      | set xs =>
        have hx : ∀ x ∈ xs, sizeOf x < n := by
          intro x hx
          have := List.sizeOf_lt_of_mem hx
          simp at ha; omega
        have hlist : ∀ ys, tbeqList xs ys = true ↔ xs = ys :=
          fun ys => tbeqList_iff_of xs ys (fun x hmem b => ih x (hx x hmem) b)
        cases b <;> simp [tbeq, hlist]
      | map ps =>
        have hp : ∀ p ∈ ps, sizeOf p.1 < n ∧ sizeOf p.2 < n := by
          intro p hmem
          have h1 := List.sizeOf_lt_of_mem hmem
          have h2 : sizeOf p.1 < sizeOf p ∧ sizeOf p.2 < sizeOf p := by
            obtain ⟨x, y⟩ := p; simp only [Prod.mk.sizeOf_spec]; omega
          simp at ha; omega
        have hpairs : ∀ qs, tbeqPairs ps qs = true ↔ ps = qs :=
          fun qs => tbeqPairs_iff_of ps qs
            (fun p hmem b => ⟨ih p.1 (hp p hmem).1 b, ih p.2 (hp p hmem).2 b⟩)
        cases b <;> simp [tbeq, hpairs]
  exact fun a b => main (sizeOf a + 1) a (Nat.lt_succ_self _) b

instance : DecidableEq TValue :=
  fun a b => decidable_of_iff (tbeq a b = true) (tbeq_iff_eq a b)

/-- Member descriptor (spec section 3): one registered field of a class. -/
structure MemberMeta where
  key : String
  name : String
  tag : TypeTag
  isRequired : Bool
  emitDefaultValue : Bool
deriving DecidableEq, Repr

/-- Class descriptor (spec section 3). -/
structure ClassMeta where
  isExplicitlyMarked : Bool
  members : List MemberMeta
  knownTypes : List Ctor
deriving DecidableEq, Repr

/-- The metadata registry: class descriptors looked up by class id. -/
abbrev Reg := List (Nat × ClassMeta)

/-- Registry lookup by constructor identity. -/
def regGet (reg : Reg) (c : Nat) : Option ClassMeta :=
  match reg.find? (fun p => p.1 = c) with
  | some p => some p.2
  | none => none

/-- Modelled from the spec: `JsonObjectMetadata.getFromConstructor`
(`metadata.ts` is not under `src/`).  Registered classes come from the
registry; the scalar builtins are handled without annotation and yield
explicitly-marked empty metadata (the container examples of spec section 8
go through the root check of the constructor in `typed-json.ts`, so scalar
roots must produce marked metadata); container builtins and `Object` have
no class metadata. -/
def getFromConstructor (reg : Reg) (c : Ctor) : Option ClassMeta :=
  match c with
  | .cls n => regGet reg n
  | .number => some { isExplicitlyMarked := true, members := [], knownTypes := [] }
  | .string => some { isExplicitlyMarked := true, members := [], knownTypes := [] }
  | .boolean => some { isExplicitlyMarked := true, members := [], knownTypes := [] }
  | _ => none

/-- The per-call known-types table: resolved type name to constructor, with
JS `Map` semantics. -/
abbrev KTable := List (String × Ctor)

/-- JS `Map.prototype.set`: if the key is present, replace its value in
place (keeping the original insertion position), otherwise append.  A JS
`Map` never holds two bindings of one key, so replacing the first binding
is the `Map` semantics. -/
def ktSet : KTable → String → Ctor → KTable
  | [], k, v => [(k, v)]
  | p :: m, k, v => if p.1 = k then (k, v) :: m else p :: ktSet m k v

/-- JS `Map.prototype.get`. -/
def ktGet : KTable → String → Option Ctor
  | [], _ => none
  | p :: m, k => if p.1 = k then some p.2 else ktGet m k

theorem ktGet_ktSet (m : KTable) (k k' : String) (v : Ctor) :
    ktGet (ktSet m k v) k' = if k = k' then some v else ktGet m k' := by
  induction m with
  | nil => simp [ktSet, ktGet]
  | cons p m ih =>
    obtain ⟨pk, pv⟩ := p
    by_cases hpk : pk = k
    · subst hpk
      simp only [ktSet, if_pos rfl]
      by_cases h : pk = k' <;> simp [ktGet, h]
    · simp only [ktSet, if_neg hpk]
      by_cases h : pk = k'
      · subst h
        have hkk : ¬k = pk := fun hh => hpk hh.symm
        simp [ktGet, hkk]
      · simp [ktGet, h, ih]

/-- Folding `ktSet` over a list of constructors: a later registration under
the same resolved name wins, silently. -/
theorem ktGet_foldl_ktSet (nm : Ctor → String) (cs : List Ctor) (m : KTable) (s : String) :
    ktGet (cs.foldl (fun acc c => ktSet acc (nm c) c) m) s =
      match cs.reverse.find? (fun c => nm c = s) with
      | some c => some c
      | none => ktGet m s := by
  induction cs generalizing m with
  | nil => simp
  | cons c cs ih =>
    simp only [List.foldl_cons, ih, List.reverse_cons, List.find?_append]
    cases hfind : cs.reverse.find? (fun c => nm c = s) with
    | some c' => simp
    | none =>
      simp only [Option.none_orElse]
      by_cases h : nm c = s
      · simp [List.find?, h, ktGet_ktSet]
      · simp [List.find?, h, ktGet_ktSet]

/-! ## Serializer and Deserializer core (spec sections 4.2-4.4) -/

/-- The reserved type-hint key (spec section 6 wire-shape contract). -/
def typeHintKey : String := "__type"

/-- The tag of the elements one level inside an array tag: depth greater
than 1 recurses into nested arrays, decrementing the depth, bottoming out
at depth 1 where elements use the element tag directly (spec section 4.3). -/
def childTag (t : TypeTag) (d : Nat) : TypeTag :=
  if d ≤ 1 then t else .arrayT t (d - 1)

/-- Type-appropriate default emitted for an absent member with
`emitDefaultValue` set (spec section 4.3: `0`, `""`, `false`; containers
default to an empty array, objects to `null`). -/
def defaultPlain : TypeTag → PValue
  | .num => .num 0
  | .str => .str ""
  | .bool => .bool false
  | .object _ => .null
  | .arrayT _ _ => .arr []
  | .setT _ => .arr []
  | .mapT _ _ => .arr []

/-- Lookup of an instance field by member key (first binding wins, as JS
property access). -/
def lookupField : List (String × TValue) → String → Option TValue
  | [], _ => none
  | (k', v) :: fs, k => if k' = k then some v else lookupField fs k

theorem lookupField_sizeOf {fs : List (String × TValue)} {k : String} {v : TValue}
    (h : lookupField fs k = some v) : sizeOf v < sizeOf fs := by
  induction fs with
  | nil => simp [lookupField] at h
  | cons p fs ih =>
    obtain ⟨k', v'⟩ := p
    simp only [lookupField] at h
    split at h
    · cases h
      simp only [List.cons.sizeOf_spec, Prod.mk.sizeOf_spec]
      omega
    · have := ih h
      simp only [List.cons.sizeOf_spec, Prod.mk.sizeOf_spec]
      omega

/-- Lookup of a plain-object property by serialized name. -/
def lookupPlain : List (String × PValue) → String → Option PValue
  | [], _ => none
  | (k', v) :: fs, k => if k' = k then some v else lookupPlain fs k

theorem lookupPlain_sizeOf {fs : List (String × PValue)} {k : String} {v : PValue}
    (h : lookupPlain fs k = some v) : sizeOf v < sizeOf fs := by
  induction fs with
  | nil => simp [lookupPlain] at h
  | cons p fs ih =>
    obtain ⟨k', v'⟩ := p
    simp only [lookupPlain] at h
    split at h
    · cases h
      simp only [List.cons.sizeOf_spec, Prod.mk.sizeOf_spec]
      omega
    · have := ih h
      simp only [List.cons.sizeOf_spec, Prod.mk.sizeOf_spec]
      omega

mutual

/-- Modelled from the spec: `Serializer.convertSingleValue` (`serializer.ts`
is not under `src/`).  Spec sections 4.2 (default `typeHintEmitter`), 4.3 and
6: scalars transcribe; an instance serializes the members of the *expected*
class descriptor in declared order and stamps the reserved `__type` hint
only when the runtime constructor differs from the expected one;
arrays/Sets/Maps serialize as arrays (Maps as arrays of `[key, value]`
pairs).  Shape mismatches are reported through the error handler and a
`null` placeholder keeps the output best-effort (spec sections 4.3 and 7),
so errors do not change the shape of the surrounding output. -/
def serializeValue (reg : Reg) (nm : Ctor → String) : TValue → TypeTag → PValue
  | .num n, .num => .num n
  | .str s, .str => .str s
  | .bool b, .bool => .bool b
  | .inst c fs, .object e =>
    (match regGet reg e with
     | none => .null
     | some meta =>
       if c = e then .obj (serializeMembers reg nm meta.members fs)
       else .obj (serializeMembers reg nm meta.members fs ++ [(typeHintKey, .str (nm (.cls c)))]))
  | .arr xs, .arrayT t d => .arr (serializeElements reg nm xs (childTag t d))
  | .set xs, .setT t => .arr (serializeElements reg nm xs t)
  | .map ps, .mapT ktag vtag => .arr (serializePairs reg nm ps ktag vtag)
  | _, _ => .null
termination_by v t => (sizeOf v, 0)

/-- Serialization of the declared members, in declared order (spec section
4.3): a present, defined field is recursively converted under its declared
serialized name; an absent or `undefined` field is omitted unless
`emitDefaultValue` is set, in which case a type-appropriate default is
emitted. -/
def serializeMembers (reg : Reg) (nm : Ctor → String) :
    List MemberMeta → List (String × TValue) → List (String × PValue)
  | [], _ => []
  | m :: ms, fs =>
    match h : lookupField fs m.key with
    | some v =>
      if v = .undef then
        if m.emitDefaultValue then
          (m.name, defaultPlain m.tag) :: serializeMembers reg nm ms fs
        else
          serializeMembers reg nm ms fs
      else
        (m.name, serializeValue reg nm v m.tag) :: serializeMembers reg nm ms fs
    | none =>
      if m.emitDefaultValue then
        (m.name, defaultPlain m.tag) :: serializeMembers reg nm ms fs
      else
        serializeMembers reg nm ms fs
termination_by ms fs => (sizeOf fs, sizeOf ms)
decreasing_by
  all_goals
    first
      | (simp_wf; exact Prod.Lex.left _ _ (lookupField_sizeOf h))
      | decreasing_tactic

def serializeElements (reg : Reg) (nm : Ctor → String) :
    List TValue → TypeTag → List PValue
  | [], _ => []
  | x :: xs, t => serializeValue reg nm x t :: serializeElements reg nm xs t
termination_by xs t => (sizeOf xs, 0)

def serializePairs (reg : Reg) (nm : Ctor → String) :
    List (TValue × TValue) → TypeTag → TypeTag → List PValue
  | [], _, _ => []
  | (k, v) :: ps, ktag, vtag =>
    .arr [serializeValue reg nm k ktag, serializeValue reg nm v vtag] ::
      serializePairs reg nm ps ktag vtag
termination_by ps ktag vtag => (sizeOf ps, 0)

end

/-- Modelled from the spec (section 4.2): the default `typeResolver` reads
the reserved `__type` key from the plain object; if it is absent, the
statically expected constructor is returned; if it is present, the name is
looked up in the known-types table, and an unknown name is a
deserialization error (`none`), not a silent fallback. -/
def resolveCtorDefault (kt : KTable) (expected : Nat) : Option PValue → Option Ctor
  | none => some (.cls expected)
  | some (.str s) => ktGet kt s
  | some _ => none

/-- JS `Set.prototype.add`: re-adding an existing element leaves the set
unchanged (the first insertion position is kept; duplicates collapse per
standard set semantics, spec section 4.4). -/
def insertUniq (acc : List TValue) (v : TValue) : List TValue :=
  if v ∈ acc then acc else acc ++ [v]

/-- JS `Map.prototype.set` on deserialized maps: a repeated key replaces
the value of the existing binding in place, otherwise the pair is
appended. -/
def mapInsert : List (TValue × TValue) → TValue → TValue → List (TValue × TValue)
  | [], k, v => [(k, v)]
  | p :: ps, k, v => if p.1 = k then (k, v) :: ps else p :: mapInsert ps k v

mutual

/-- Modelled from the spec: `Deserializer.convertSingleValue`
(`deserializer.ts` is not under `src/`).  Spec section 4.4: scalars invert
the scalar encoding; a plain object resolves its actual constructor through
the default `typeResolver` and an unregistered or unresolvable constructor
is an error; arrays/Sets/Maps deserialize from arrays (Maps from arrays of
2-element pairs, a pair of any other shape being an error localized to
that element).  Per-field and per-element errors are reported through the
error handler and the conversion continues, leaving `undef` error
placeholders in the best-effort result (spec section 4.4 failure
semantics). -/
def deserializeValue (reg : Reg) (nm : Ctor → String) (kt : KTable) : PValue → TypeTag → TValue
  | .num n, .num => .num n
  | .str s, .str => .str s
  | .bool b, .bool => .bool b
  | .obj fs, .object e =>
    (match resolveCtorDefault kt e (lookupPlain fs typeHintKey) with
     | some (Ctor.cls c) =>
       (match regGet reg c with
        | some meta => .inst c (deserializeMembers reg nm kt meta.members fs)
        | none => .undef)
     | _ => .undef)
  | .arr xs, .arrayT t d => .arr (deserializeElements reg nm kt xs (childTag t d))
  | .arr xs, .setT t => .set ((deserializeElements reg nm kt xs t).foldl insertUniq [])
  | .arr xs, .mapT ktag vtag => .map (deserializeMapEntries reg nm kt xs ktag vtag [])
  | _, _ => .undef
termination_by p t => (sizeOf p, 0)

/-- Deserialization of the declared members (spec section 4.4): for each
member descriptor in declared order, the serialized name is looked up in
the plain object; a present property is recursively converted and assigned
under the member key; an absent one leaves the field unset (recording a
missing-required-member error through the handler when `isRequired`). -/
def deserializeMembers (reg : Reg) (nm : Ctor → String) (kt : KTable) :
    List MemberMeta → List (String × PValue) → List (String × TValue)
  | [], _ => []
  | m :: ms, fs =>
    match h : lookupPlain fs m.name with
    | some pv =>
      (m.key, deserializeValue reg nm kt pv m.tag) :: deserializeMembers reg nm kt ms fs
    | none => deserializeMembers reg nm kt ms fs
termination_by ms fs => (sizeOf fs, sizeOf ms)
decreasing_by
  all_goals
    first
      | (simp_wf; exact Prod.Lex.left _ _ (lookupPlain_sizeOf h))
      | decreasing_tactic

def deserializeElements (reg : Reg) (nm : Ctor → String) (kt : KTable) :
    List PValue → TypeTag → List TValue
  | [], _ => []
  | x :: xs, t => deserializeValue reg nm kt x t :: deserializeElements reg nm kt xs t
termination_by xs t => (sizeOf xs, 0)

/-- Deserialization of the `[key, value]` entries of a serialized map,
inserting each converted pair with JS `Map.set` semantics; an entry that is
not a 2-element array is an error localized to that entry and is skipped
in the best-effort result (spec section 4.4). -/
def deserializeMapEntries (reg : Reg) (nm : Ctor → String) (kt : KTable) :
    List PValue → TypeTag → TypeTag → List (TValue × TValue) → List (TValue × TValue)
  | [], _, _, acc => acc
  | .arr [pk, pv] :: xs, ktag, vtag, acc =>
    deserializeMapEntries reg nm kt xs ktag vtag
      (mapInsert acc (deserializeValue reg nm kt pk ktag) (deserializeValue reg nm kt pv vtag))
  | _ :: xs, ktag, vtag, acc => deserializeMapEntries reg nm kt xs ktag vtag acc
termination_by xs ktag vtag acc => (sizeOf xs, 0)

end

/-! ## Well-typedness: instances of registered classes with no polymorphic
fields -/

mutual

/-- `wtValue reg v t` holds when the typed value `v` matches the tag `t`
with no polymorphism anywhere: every instance's runtime class equals its
statically expected class and is registered, its fields align one-to-one
with the declared members (each field well-typed at its member's declared
tag and defined), set elements are distinct and map keys are distinct, as
a JS `Set`/`Map` guarantees. -/
def wtValue (reg : Reg) : TValue → TypeTag → Bool
  | .num _, .num => true
  | .str _, .str => true
  | .bool _, .bool => true
  | .inst c fs, .object e =>
    c == e &&
      (match regGet reg c with
       | none => false
       | some meta => wtMembers reg meta.members fs)
  | .arr xs, .arrayT t d => wtElements reg xs (childTag t d)
  | .set xs, .setT t => decide xs.Nodup && wtElements reg xs t
  | .map ps, .mapT ktag vtag =>
    decide (ps.map Prod.fst).Nodup && wtPairs reg ps ktag vtag
  | _, _ => false
termination_by v t => sizeOf v

def wtMembers (reg : Reg) : List MemberMeta → List (String × TValue) → Bool
  | [], [] => true
  | m :: ms, (k, v) :: fs => k == m.key && wtValue reg v m.tag && wtMembers reg ms fs
  | _, _ => false
termination_by ms fs => sizeOf fs

def wtElements (reg : Reg) : List TValue → TypeTag → Bool
  | [], _ => true
  | x :: xs, t => wtValue reg x t && wtElements reg xs t
termination_by xs t => sizeOf xs

def wtPairs (reg : Reg) : List (TValue × TValue) → TypeTag → TypeTag → Bool
  | [], _, _ => true
  | (k, v) :: ps, ktag, vtag =>
    wtValue reg k ktag && wtValue reg v vtag && wtPairs reg ps ktag vtag
termination_by ps ktag vtag => sizeOf ps

end

/-- Well-formedness of one class descriptor's member list: keys are
distinct, serialized names are distinct, and no serialized name collides
with the reserved `__type` hint key. -/
def memberMetaOK (ms : List MemberMeta) : Bool :=
  decide (ms.map (fun m => m.key)).Nodup &&
  decide (ms.map (fun m => m.name)).Nodup &&
  ms.all (fun m => m.name != typeHintKey)

/-- Well-formedness of the whole registry. -/
def regWF (reg : Reg) : Bool :=
  reg.all (fun p => memberMetaOK p.2.members)



theorem serializeMembers_cons_some (reg : Reg) (nm : Ctor → String) (m : MemberMeta)
    (ms : List MemberMeta) (fs : List (String × TValue)) (v : TValue)
    (h : lookupField fs m.key = some v) (hv : ¬v = TValue.undef) :
    serializeMembers reg nm (m :: ms) fs =
      (m.name, serializeValue reg nm v m.tag) :: serializeMembers reg nm ms fs := by
  rw [serializeMembers.eq_def]
  split
  · rename_i h2
    exact absurd h2 (by simp)
  · rename_i fs2 m2 ms2 h2
    injection h2 with hm hms
    subst hm
    subst hms
    split
    · rename_i v2 h3
      rw [h] at h3
      cases h3
      rw [if_neg hv]
    · rename_i h3
      rw [h] at h3
      cases h3

theorem deserializeMembers_cons_some (reg : Reg) (nm : Ctor → String) (kt : KTable)
    (m : MemberMeta) (ms : List MemberMeta) (fs : List (String × PValue)) (pv : PValue)
    (h : lookupPlain fs m.name = some pv) :
    deserializeMembers reg nm kt (m :: ms) fs =
      (m.key, deserializeValue reg nm kt pv m.tag) :: deserializeMembers reg nm kt ms fs := by
  rw [deserializeMembers.eq_def]
  split
  · rename_i h2
    exact absurd h2 (by simp)
  · rename_i fs2 m2 ms2 h2
    injection h2 with hm hms
    subst hm
    subst hms
    split
    · rename_i pv2 h3
      rw [h] at h3
      cases h3
      rfl
    · rename_i h3
      rw [h] at h3
      cases h3

theorem serializeMembers_nil (reg : Reg) (nm : Ctor → String) (fs : List (String × TValue)) :
    serializeMembers reg nm [] fs = [] := by
  rw [serializeMembers.eq_def]

theorem deserializeMembers_nil (reg : Reg) (nm : Ctor → String) (kt : KTable)
    (fs : List (String × PValue)) :
    deserializeMembers reg nm kt [] fs = [] := by
  rw [deserializeMembers.eq_def]

theorem serializeMembers_cons_undef (reg : Reg) (nm : Ctor → String) (m : MemberMeta)
    (ms : List MemberMeta) (fs : List (String × TValue))
    (h : lookupField fs m.key = some TValue.undef) :
    serializeMembers reg nm (m :: ms) fs =
      if m.emitDefaultValue then
        (m.name, defaultPlain m.tag) :: serializeMembers reg nm ms fs
      else serializeMembers reg nm ms fs := by
  rw [serializeMembers.eq_def]
  split
  · rename_i h2
    exact absurd h2 (by simp)
  · rename_i fs2 m2 ms2 h2
    injection h2 with hm hms
    subst hm
    subst hms
    split
    · rename_i v2 h3
      rw [h] at h3
      cases h3
      rw [if_pos rfl]
    · rename_i h3
      simp [h] at h3

theorem serializeMembers_cons_none (reg : Reg) (nm : Ctor → String) (m : MemberMeta)
    (ms : List MemberMeta) (fs : List (String × TValue))
    (h : lookupField fs m.key = none) :
    serializeMembers reg nm (m :: ms) fs =
      if m.emitDefaultValue then
        (m.name, defaultPlain m.tag) :: serializeMembers reg nm ms fs
      else serializeMembers reg nm ms fs := by
  rw [serializeMembers.eq_def]
  split
  · rename_i h2
    exact absurd h2 (by simp)
  · rename_i fs2 m2 ms2 h2
    injection h2 with hm hms
    subst hm
    subst hms
    split
    · rename_i v2 h3
      simp [h] at h3
    · rfl

theorem deserializeMembers_cons_none (reg : Reg) (nm : Ctor → String) (kt : KTable)
    (m : MemberMeta) (ms : List MemberMeta) (fs : List (String × PValue))
    (h : lookupPlain fs m.name = none) :
    deserializeMembers reg nm kt (m :: ms) fs = deserializeMembers reg nm kt ms fs := by
  rw [deserializeMembers.eq_def]
  split
  · rename_i h2
    exact absurd h2 (by simp)
  · rename_i fs2 m2 ms2 h2
    injection h2 with hm hms
    subst hm
    subst hms
    split
    · rename_i pv2 h3
      simp [h] at h3
    · rfl

theorem serializeMembers_skip (reg : Reg) (nm : Ctor → String) (ms : List MemberMeta)
    (k0 : String) (v0 : TValue) (fs : List (String × TValue))
    (h : ∀ m ∈ ms, ¬m.key = k0) :
    serializeMembers reg nm ms ((k0, v0) :: fs) = serializeMembers reg nm ms fs := by
  induction ms with
  | nil => rw [serializeMembers_nil, serializeMembers_nil]
  | cons m ms ih =>
    have hk : ¬m.key = k0 := h m (by simp)
    have hlk : lookupField ((k0, v0) :: fs) m.key = lookupField fs m.key := by
      simp only [lookupField]
      rw [if_neg (fun hh => hk hh.symm)]
    have hrest := ih (fun m2 hm2 => h m2 (by simp [hm2]))
    cases hv : lookupField fs m.key with
    | some v =>
      by_cases hu : v = TValue.undef
      · subst hu
        rw [serializeMembers_cons_undef reg nm m ms _ (hlk.trans hv),
          serializeMembers_cons_undef reg nm m ms _ hv, hrest]
      · rw [serializeMembers_cons_some reg nm m ms _ v (hlk.trans hv) hu,
          serializeMembers_cons_some reg nm m ms _ v hv hu, hrest]
    | none =>
      rw [serializeMembers_cons_none reg nm m ms _ (hlk.trans hv),
        serializeMembers_cons_none reg nm m ms _ hv, hrest]

theorem deserializeMembers_skip (reg : Reg) (nm : Ctor → String) (kt : KTable)
    (ms : List MemberMeta) (n0 : String) (p0 : PValue) (fs : List (String × PValue))
    (h : ∀ m ∈ ms, ¬m.name = n0) :
    deserializeMembers reg nm kt ms ((n0, p0) :: fs) = deserializeMembers reg nm kt ms fs := by
  induction ms with
  | nil => rw [deserializeMembers_nil, deserializeMembers_nil]
  | cons m ms ih =>
    have hk : ¬m.name = n0 := h m (by simp)
    have hlk : lookupPlain ((n0, p0) :: fs) m.name = lookupPlain fs m.name := by
      simp only [lookupPlain]
      rw [if_neg (fun hh => hk hh.symm)]
    have hrest := ih (fun m2 hm2 => h m2 (by simp [hm2]))
    cases hv : lookupPlain fs m.name with
    | some pv =>
      rw [deserializeMembers_cons_some reg nm kt m ms _ pv (hlk.trans hv),
        deserializeMembers_cons_some reg nm kt m ms _ pv hv, hrest]
    | none =>
      rw [deserializeMembers_cons_none reg nm kt m ms _ (hlk.trans hv),
        deserializeMembers_cons_none reg nm kt m ms _ hv, hrest]

theorem wtValue_undef (reg : Reg) (t : TypeTag) : wtValue reg .undef t = false := by
  cases t <;> simp [wtValue]

theorem wtMembers_nil_inv (reg : Reg) (fs : List (String × TValue))
    (h : wtMembers reg [] fs = true) : fs = [] := by
  cases fs with
  | nil => rfl
  | cons p fs => simp [wtMembers] at h

theorem wtMembers_cons_inv (reg : Reg) (m : MemberMeta) (ms : List MemberMeta)
    (fs : List (String × TValue)) (h : wtMembers reg (m :: ms) fs = true) :
    ∃ v fs2, fs = (m.key, v) :: fs2 ∧ wtValue reg v m.tag = true ∧
      wtMembers reg ms fs2 = true := by
  cases fs with
  | nil => simp [wtMembers] at h
  | cons p fs2 =>
    obtain ⟨k, v⟩ := p
    simp only [wtMembers, Bool.and_eq_true, beq_iff_eq] at h
    exact ⟨v, fs2, by rw [h.1.1], h.1.2, h.2⟩

/-- All field values of a well-typed member list are defined. -/
theorem wtMembers_defined (reg : Reg) (ms : List MemberMeta)
    (fs : List (String × TValue)) (h : wtMembers reg ms fs = true) :
    ∀ p ∈ fs, ¬p.2 = TValue.undef := by
  induction ms generalizing fs with
  | nil =>
    rw [wtMembers_nil_inv reg fs h]
    simp
  | cons m ms ih =>
    obtain ⟨v, fs2, rfl, hv, hrest⟩ := wtMembers_cons_inv reg m ms fs h
    intro p hp
    rcases List.mem_cons.1 hp with rfl | hp2
    · intro hu
      have hu2 : v = TValue.undef := hu
      rw [hu2, wtValue_undef] at hv
      exact Bool.false_ne_true hv
    · exact ih fs2 hrest p hp2

/-- The field keys of a well-typed member list are exactly the declared
member keys, in order. -/
theorem wtMembers_keys (reg : Reg) (ms : List MemberMeta)
    (fs : List (String × TValue)) (h : wtMembers reg ms fs = true) :
    fs.map Prod.fst = ms.map (fun m => m.key) := by
  induction ms generalizing fs with
  | nil => rw [wtMembers_nil_inv reg fs h]; rfl
  | cons m ms ih =>
    obtain ⟨v, fs2, rfl, hv, hrest⟩ := wtMembers_cons_inv reg m ms fs h
    simp [ih fs2 hrest]

/-- A key present among the field keys is found by `lookupField`, at a
binding that is itself one of the fields. -/
theorem lookupField_mem (fs : List (String × TValue)) (k : String)
    (h : k ∈ fs.map Prod.fst) :
    ∃ v, lookupField fs k = some v ∧ (k, v) ∈ fs := by
  induction fs with
  | nil => simp at h
  | cons p fs ih =>
    obtain ⟨k2, v2⟩ := p
    by_cases hk : k2 = k
    · subst hk
      exact ⟨v2, by simp [lookupField], by simp⟩
    · have h2 : k ∈ fs.map Prod.fst := by
        rcases List.mem_cons.1 h with h3 | h3
        · exact absurd h3.symm hk
        · exact h3
      obtain ⟨v, hlk, hmem⟩ := ih h2
      exact ⟨v, by simp [lookupField, hk, hlk], by simp [hmem]⟩

theorem lookupPlain_eq_none (fs : List (String × PValue)) (k : String)
    (h : k ∉ fs.map Prod.fst) : lookupPlain fs k = none := by
  induction fs with
  | nil => rfl
  | cons p fs ih =>
    obtain ⟨k2, v2⟩ := p
    simp only [List.map_cons, List.mem_cons, not_or] at h
    simp only [lookupPlain]
    rw [if_neg (fun hh => h.1 hh.symm)]
    exact ih h.2

theorem regWF_lookup {reg : Reg} (h : regWF reg = true) {c : Nat} {meta : ClassMeta}
    (hc : regGet reg c = some meta) : memberMetaOK meta.members = true := by
  unfold regGet at hc
  cases hfind : reg.find? (fun p => p.1 = c) with
  | none => rw [hfind] at hc; cases hc
  | some p =>
    rw [hfind] at hc
    cases hc
    have hmem := List.mem_of_find?_eq_some hfind
    exact List.all_eq_true.1 h p hmem

theorem serializeMembers_names (reg : Reg) (nm : Ctor → String) (ms : List MemberMeta)
    (fs : List (String × TValue))
    (hdef : ∀ p ∈ fs, ¬p.2 = TValue.undef)
    (hkeys : ∀ m ∈ ms, m.key ∈ fs.map Prod.fst) :
    (serializeMembers reg nm ms fs).map Prod.fst = ms.map (fun m => m.name) := by
  induction ms with
  | nil => rw [serializeMembers_nil]; rfl
  | cons m ms ih =>
    obtain ⟨v, hlk, hmem⟩ := lookupField_mem fs m.key (hkeys m (by simp))
    have hvu : ¬v = TValue.undef := hdef (m.key, v) hmem
    rw [serializeMembers_cons_some reg nm m ms fs v hlk hvu]
    simp only [List.map_cons]
    rw [ih (fun m2 hm2 => hkeys m2 (by simp [hm2]))]

theorem roundtripMembers (reg : Reg) (nm : Ctor → String) (kt : KTable)
    (ms : List MemberMeta) (fs : List (String × TValue))
    (hIH : ∀ p ∈ fs, ∀ t, wtValue reg p.2 t = true →
      deserializeValue reg nm kt (serializeValue reg nm p.2 t) t = p.2)
    (hkeys : (ms.map (fun m => m.key)).Nodup)
    (hnames : (ms.map (fun m => m.name)).Nodup)
    (hwt : wtMembers reg ms fs = true) :
    deserializeMembers reg nm kt ms (serializeMembers reg nm ms fs) = fs := by
  induction ms generalizing fs with
  | nil =>
    rw [wtMembers_nil_inv reg fs hwt, serializeMembers_nil, deserializeMembers_nil]
  | cons m ms ih =>
    obtain ⟨v, fs2, rfl, hv, hrest⟩ := wtMembers_cons_inv reg m ms fs hwt
    have hvu : ¬v = TValue.undef := by
      intro hu
      rw [hu, wtValue_undef] at hv
      exact Bool.false_ne_true hv
    have hlk : lookupField ((m.key, v) :: fs2) m.key = some v := by
      simp [lookupField]
    rw [serializeMembers_cons_some reg nm m ms _ v hlk hvu]
    have hknodup : ∀ m2 ∈ ms, ¬m2.key = m.key := by
      intro m2 hm2 he
      have hmemk : m2.key ∈ ms.map (fun m => m.key) := List.mem_map_of_mem _ hm2
      rw [he] at hmemk
      simp only [List.map_cons, List.nodup_cons] at hkeys
      exact hkeys.1 hmemk
    rw [serializeMembers_skip reg nm ms m.key v fs2 hknodup]
    have hlp : lookupPlain
        ((m.name, serializeValue reg nm v m.tag) :: serializeMembers reg nm ms fs2) m.name
        = some (serializeValue reg nm v m.tag) := by
      simp [lookupPlain]
    rw [deserializeMembers_cons_some reg nm kt m ms _ _ hlp]
    have hnnodup : ∀ m2 ∈ ms, ¬m2.name = m.name := by
      intro m2 hm2 he
      have hmemn : m2.name ∈ ms.map (fun m => m.name) := List.mem_map_of_mem _ hm2
      rw [he] at hmemn
      simp only [List.map_cons, List.nodup_cons] at hnames
      exact hnames.1 hmemn
    rw [deserializeMembers_skip reg nm kt ms m.name _ _ hnnodup]
    rw [ih fs2 (fun p hp t hwt2 => hIH p (by simp [hp]) t hwt2)
      (by simp only [List.map_cons, List.nodup_cons] at hkeys; exact hkeys.2)
      (by simp only [List.map_cons, List.nodup_cons] at hnames; exact hnames.2) hrest]
    have h5 : deserializeValue reg nm kt (serializeValue reg nm v m.tag) m.tag = v :=
      hIH (m.key, v) (by simp) m.tag hv
    rw [h5]

theorem roundtripElements (reg : Reg) (nm : Ctor → String) (kt : KTable)
    (xs : List TValue) (t : TypeTag)
    (hIH : ∀ x ∈ xs, wtValue reg x t = true →
      deserializeValue reg nm kt (serializeValue reg nm x t) t = x)
    (hwt : wtElements reg xs t = true) :
    deserializeElements reg nm kt (serializeElements reg nm xs t) t = xs := by
  induction xs with
  | nil => simp [serializeElements, deserializeElements]
  | cons x xs ih =>
    simp only [wtElements, Bool.and_eq_true] at hwt
    simp only [serializeElements, deserializeElements]
    rw [hIH x (by simp) hwt.1, ih (fun y hy h2 => hIH y (by simp [hy]) h2) hwt.2]

theorem foldl_insertUniq_append (xs : List TValue) (acc : List TValue)
    (hdisj : ∀ x ∈ xs, x ∉ acc) (hnd : xs.Nodup) :
    xs.foldl insertUniq acc = acc ++ xs := by
  induction xs generalizing acc with
  | nil => simp
  | cons x xs ih =>
    simp only [List.foldl_cons]
    have hx : insertUniq acc x = acc ++ [x] := by
      simp only [insertUniq]
      rw [if_neg (hdisj x (by simp))]
    rw [hx]
    rw [ih (acc ++ [x]) ?_ (List.nodup_cons.1 hnd).2]
    · simp
    · intro y hy
      simp only [List.mem_append, List.mem_singleton, not_or]
      refine ⟨hdisj y (by simp [hy]), ?_⟩
      intro he
      subst he
      exact (List.nodup_cons.1 hnd).1 hy

theorem mapInsert_append (acc : List (TValue × TValue)) (k v : TValue)
    (h : ∀ p ∈ acc, ¬p.1 = k) :
    mapInsert acc k v = acc ++ [(k, v)] := by
  induction acc with
  | nil => rfl
  | cons p acc ih =>
    simp only [mapInsert]
    rw [if_neg (h p (by simp)), ih (fun q hq => h q (by simp [hq]))]
    rfl

theorem deserializeMapEntries_roundtrip (reg : Reg) (nm : Ctor → String) (kt : KTable)
    (ps : List (TValue × TValue)) (ktag vtag : TypeTag) (acc : List (TValue × TValue))
    (hIH : ∀ p ∈ ps,
      deserializeValue reg nm kt (serializeValue reg nm p.1 ktag) ktag = p.1 ∧
      deserializeValue reg nm kt (serializeValue reg nm p.2 vtag) vtag = p.2)
    (hnd : (ps.map Prod.fst).Nodup)
    (hdisj : ∀ p ∈ ps, ∀ q ∈ acc, ¬q.1 = p.1) :
    deserializeMapEntries reg nm kt (serializePairs reg nm ps ktag vtag) ktag vtag acc =
      acc ++ ps := by
  induction ps generalizing acc with
  | nil => simp [serializePairs, deserializeMapEntries]
  | cons p ps ih =>
    obtain ⟨k, v⟩ := p
    simp only [serializePairs, deserializeMapEntries]
    have hk : deserializeValue reg nm kt (serializeValue reg nm k ktag) ktag = k :=
      (hIH (k, v) (by simp)).1
    have hv : deserializeValue reg nm kt (serializeValue reg nm v vtag) vtag = v :=
      (hIH (k, v) (by simp)).2
    rw [hk, hv]
    rw [mapInsert_append acc k v (fun q hq => hdisj (k, v) (by simp) q hq)]
    rw [ih (acc ++ [(k, v)]) (fun p hp => hIH p (by simp [hp]))
      (by simp only [List.map_cons, List.nodup_cons] at hnd; exact hnd.2)
      ?_]
    · simp
    · intro p hp q hq
      rcases List.mem_append.1 hq with hq2 | hq2
      · exact hdisj p (by simp [hp]) q hq2
      · simp only [List.mem_singleton] at hq2
        subst hq2
        simp only [List.map_cons, List.nodup_cons] at hnd
        intro he
        refine hnd.1 ?_
        have he2 : k = p.1 := he
        rw [he2]
        exact List.mem_map_of_mem Prod.fst hp

theorem wtElements_forall (reg : Reg) (xs : List TValue) (t : TypeTag)
    (h : wtElements reg xs t = true) : ∀ x ∈ xs, wtValue reg x t = true := by
  induction xs with
  | nil => simp
  | cons x xs ih =>
    simp only [wtElements, Bool.and_eq_true] at h
    intro y hy
    rcases List.mem_cons.1 hy with rfl | hy2
    · exact h.1
    · exact ih h.2 y hy2

theorem wtPairs_forall (reg : Reg) (ps : List (TValue × TValue)) (ktag vtag : TypeTag)
    (h : wtPairs reg ps ktag vtag = true) :
    ∀ p ∈ ps, wtValue reg p.1 ktag = true ∧ wtValue reg p.2 vtag = true := by
  induction ps with
  | nil => simp
  | cons p ps ih =>
    obtain ⟨k, v⟩ := p
    simp only [wtPairs, Bool.and_eq_true] at h
    intro q hq
    rcases List.mem_cons.1 hq with rfl | hq2
    · exact ⟨h.1.1, h.1.2⟩
    · exact ih h.2 q hq2

theorem roundtripValueAux (reg : Reg) (nm : Ctor → String) (kt : KTable)
    (hreg : regWF reg = true) :
    ∀ (n : Nat) (v : TValue), sizeOf v < n → ∀ t, wtValue reg v t = true →
      deserializeValue reg nm kt (serializeValue reg nm v t) t = v := by
  intro n
  induction n with
  | zero => intro v hv; omega
  | succ n ih =>
    intro v hv t hwt
    cases v with
    | num m =>
      cases t <;> simp [wtValue] at hwt <;> simp [serializeValue, deserializeValue]
    | str s =>
      cases t <;> simp [wtValue] at hwt <;> simp [serializeValue, deserializeValue]
    | bool b =>
      cases t <;> simp [wtValue] at hwt <;> simp [serializeValue, deserializeValue]
    | undef =>
      rw [wtValue_undef] at hwt
      exact absurd hwt (by simp)
    | inst c fs =>
      cases t with
      | num => simp [wtValue] at hwt
      | str => simp [wtValue] at hwt
      | bool => simp [wtValue] at hwt
      | arrayT t d => simp [wtValue] at hwt
      | setT t => simp [wtValue] at hwt
      | mapT ktag vtag => simp [wtValue] at hwt
      | object e =>
        simp only [wtValue, Bool.and_eq_true, beq_iff_eq] at hwt
        obtain ⟨hce, hm⟩ := hwt
        subst hce
        cases hr : regGet reg c with
        | none => simp [hr] at hm
        | some meta =>
          simp only [hr] at hm
          have hmetaOK := regWF_lookup hreg hr
          simp only [memberMetaOK, Bool.and_eq_true, decide_eq_true_eq,
            List.all_eq_true, bne_iff_ne, ne_eq] at hmetaOK
          obtain ⟨⟨hknd, hnnd⟩, hnames⟩ := hmetaOK
          have hdef := wtMembers_defined reg meta.members fs hm
          have hkeysmem : ∀ m ∈ meta.members, m.key ∈ fs.map Prod.fst := by
            intro m hm2
            rw [wtMembers_keys reg meta.members fs hm]
            exact List.mem_map_of_mem _ hm2
          have hserialnames := serializeMembers_names reg nm meta.members fs hdef hkeysmem
          have hhint : lookupPlain (serializeMembers reg nm meta.members fs) typeHintKey
              = none := by
            apply lookupPlain_eq_none
            rw [hserialnames]
            intro hmem
            obtain ⟨m, hm2, he⟩ := List.mem_map.1 hmem
            exact (hnames m hm2) he
          have hsz : ∀ p ∈ fs, sizeOf p.2 < n := by
            intro p hp
            have h1 := List.sizeOf_lt_of_mem hp
            have h2 : sizeOf p.2 < sizeOf p := by
              obtain ⟨x, y⟩ := p
              simp only [Prod.mk.sizeOf_spec]
              omega
            simp only [TValue.inst.sizeOf_spec] at hv
            omega
          simp only [serializeValue, hr]
          rw [if_pos trivial]
          simp only [deserializeValue, hhint, resolveCtorDefault, hr]
          rw [roundtripMembers reg nm kt meta.members fs
            (fun p hp t2 hwt2 => ih p.2 (hsz p hp) t2 hwt2) hknd hnnd hm]
    | arr xs =>
      have hsz : ∀ x ∈ xs, sizeOf x < n := by
        intro x hx
        have := List.sizeOf_lt_of_mem hx
        simp only [TValue.arr.sizeOf_spec] at hv
        omega
      cases t with
      | num => simp [wtValue] at hwt
      | str => simp [wtValue] at hwt
      | bool => simp [wtValue] at hwt
      | object e => simp [wtValue] at hwt
      | setT t => simp [wtValue] at hwt
      | mapT ktag vtag => simp [wtValue] at hwt
      | arrayT t d =>
        simp only [wtValue] at hwt
        simp only [serializeValue, deserializeValue]
        rw [roundtripElements reg nm kt xs (childTag t d)
          (fun x hx h2 => ih x (hsz x hx) (childTag t d) h2) hwt]
    | set xs =>
      have hsz : ∀ x ∈ xs, sizeOf x < n := by
        intro x hx
        have := List.sizeOf_lt_of_mem hx
        simp only [TValue.set.sizeOf_spec] at hv
        omega
      cases t with
      | num => simp [wtValue] at hwt
      | str => simp [wtValue] at hwt
      | bool => simp [wtValue] at hwt
      | object e => simp [wtValue] at hwt
      | arrayT t d => simp [wtValue] at hwt
      | mapT ktag vtag => simp [wtValue] at hwt
      | setT t =>
        simp only [wtValue, Bool.and_eq_true, decide_eq_true_eq] at hwt
        obtain ⟨hnd, helems⟩ := hwt
        simp only [serializeValue, deserializeValue]
        rw [roundtripElements reg nm kt xs t
          (fun x hx h2 => ih x (hsz x hx) t h2) helems]
        rw [foldl_insertUniq_append xs [] (by simp) hnd]
        simp
    | map ps =>
      have hsz : ∀ p ∈ ps, sizeOf p.1 < n ∧ sizeOf p.2 < n := by
        intro p hp
        have h1 := List.sizeOf_lt_of_mem hp
        have h2 : sizeOf p.1 < sizeOf p ∧ sizeOf p.2 < sizeOf p := by
          obtain ⟨x, y⟩ := p
          simp only [Prod.mk.sizeOf_spec]
          omega
        simp only [TValue.map.sizeOf_spec] at hv
        omega
      cases t with
      | num => simp [wtValue] at hwt
      | str => simp [wtValue] at hwt
      | bool => simp [wtValue] at hwt
      | object e => simp [wtValue] at hwt
      | arrayT t d => simp [wtValue] at hwt
      | setT t => simp [wtValue] at hwt
      | mapT ktag vtag =>
        simp only [wtValue, Bool.and_eq_true, decide_eq_true_eq] at hwt
        obtain ⟨hnd, hpairs⟩ := hwt
        have hforall := wtPairs_forall reg ps ktag vtag hpairs
        simp only [serializeValue, deserializeValue]
        rw [deserializeMapEntries_roundtrip reg nm kt ps ktag vtag []
          (fun p hp =>
            ⟨ih p.1 (hsz p hp).1 ktag (hforall p hp).1,
             ih p.2 (hsz p hp).2 vtag (hforall p hp).2⟩)
          hnd (by simp)]
        simp

theorem roundtripValue (reg : Reg) (nm : Ctor → String) (kt : KTable)
    (hreg : regWF reg = true) (v : TValue) (t : TypeTag)
    (hwt : wtValue reg v t = true) :
    deserializeValue reg nm kt (serializeValue reg nm v t) t = v :=
  roundtripValueAux reg nm kt hreg (sizeOf v + 1) v (Nat.lt_succ_self _) t hwt

/-! ## The facade (`typed-json.ts`, src/unnamed/part_000) -/

/-- Modelled from the spec: the default name resolver (`Helpers.nameof`,
`helpers.ts` is not under `src/`) resolves a constructor to its declared
class or function name. -/
def nameofDefault : Ctor → String
  | .number => "Number"
  | .string => "String"
  | .boolean => "Boolean"
  | .array => "Array"
  | .set => "Set"
  | .map => "Map"
  | .object => "Object"
  | .cls n => "Class" ++ toString n

/-- The data-valued part of `ITypedJSONSettings` that the constructed
converter stores (`knownTypes`, `indent`); the function-valued settings
(`errorHandler`, `typeResolver`, `typeHintEmitter`, `nameResolver`,
`replacer`) are threaded to the conversion functions below as explicit
parameters, so that constructed converter states stay comparable. -/
structure TJSettings where
  indent : Option Nat
  knownTypes : Option (List (Option Ctor))
deriving DecidableEq, Repr

def emptySettings : TJSettings := ⟨none, none⟩

/-- Keep-first de-duplication: the JS `Array.from(new Set(xs))` of
`TypedJSON.config` line 159. -/
def dedupKeepFirst (xs : List (Option Ctor)) : List (Option Ctor) :=
  xs.foldl (fun acc x => if x ∈ acc then acc else acc ++ [x]) []

/-- `TypedJSON.config` lines 149-161: the global configuration is spread
under the explicit settings (explicit fields win), and when both the merge
result and the global configuration carry `knownTypes`, the lists are
concatenated and de-duplicated. -/
def mergeSettings (g s : TJSettings) : TJSettings :=
  let kt0 := match s.knownTypes with
    | some a => some a
    | none => g.knownTypes
  let kt := match kt0, g.knownTypes with
    | some a, some b => some (dedupKeepFirst (a ++ b))
    | _, _ => kt0
  ⟨match s.indent with | some i => some i | none => g.indent, kt⟩

/-- The constructed converter state (`typed-json.ts` lines 106-113): root
constructor, per-instance known types and indentation, with their
defaults. -/
structure InstState where
  rootConstructor : Ctor
  globalKnownTypes : List (Option Ctor)
  indent : Nat
deriving DecidableEq, Repr

/-- `TypedJSON.config` lines 163-196 applied to an instance: `indent` is
assigned only when truthy (non-zero), `knownTypes` replaces the instance
list whenever present (a JS array is truthy even when empty). -/
def applySettings (st : InstState) (s : TJSettings) : InstState :=
  let st1 := match s.indent with
    | some i => if i ≠ 0 then { st with indent := i } else st
    | none => st
  match s.knownTypes with
  | some kt => { st1 with globalKnownTypes := kt }
  | none => st1

/-- `TypedJSON.config` (lines 147-196): merge the ambient global
configuration under the explicit settings, then apply the result. -/
def configTJ (global : Option TJSettings) (st : InstState) (s : TJSettings) : InstState :=
  match global with
  | some g => applySettings st (mergeSettings g s)
  | none => applySettings st s

/-- The message of the `TypeError` thrown by the constructor for an
unregistered root type (line 126). -/
def rootTypeErrorMsg : String :=
  "The TypedJSON root data type must have the @jsonObject decorator used."

/-- The `TypedJSON` constructor (lines 120-141): the root metadata is
fetched, and missing or not explicitly marked metadata raises a `TypeError`
immediately — the error handler (`handler`, never consulted here) plays no
part; then the explicit settings are applied through `config`, or
`config({})` is called when only a global configuration exists. -/
def mkTypedJSON (reg : Reg) (global : Option TJSettings) (root : Ctor)
    (settings : Option TJSettings) (handler : Handler) : Except JSError InstState :=
  match getFromConstructor reg root with
  | none => .error (.typeError rootTypeErrorMsg)
  | some m =>
    if m.isExplicitlyMarked then
      let st : InstState := ⟨root, [], 0⟩
      .ok (match settings with
        | some s => configTJ global st s
        | none =>
          match global with
          | some _ => configTJ global st emptySettings
          | none => st)
    else
      .error (.typeError rootTypeErrorMsg)

/-- The type tag under which the facade hands a constructor to the
converters (the `selfConstructor`/`elementConstructor` conversion options).
Container builtins and `Object` cannot reach the converters as roots: the
constructor rejects them (they have no class metadata), so their tag is
arbitrary. -/
def ctorToTag : Ctor → TypeTag
  | .number => .num
  | .string => .str
  | .boolean => .bool
  | .cls n => .object n
  | .array => .num
  | .set => .num
  | .map => .num
  | .object => .num

/-- `TypedJSON.parse` lines 205-220: the per-call known-types table is
built by inserting first the non-null globally configured known types and
then the root metadata's own known types, each under its resolved name. -/
def parseKnownTypesTable (reg : Reg) (nm : Ctor → String)
    (global : List (Option Ctor)) (root : Ctor) : KTable :=
  let kt := (global.filterMap id).foldl (fun m c => ktSet m (nm c) c) []
  match getFromConstructor reg root with
  | some meta => meta.knownTypes.foldl (fun m c => ktSet m (nm c) c) kt
  | none => kt

/-- `TypedJSON._mapKnownTypes` (lines 353-360): the known-types table used
by the array/set/map conversion variants, built from the non-null
constructors of the given list only. -/
def mapKnownTypes (nm : Ctor → String) (ctors : List (Option Ctor)) : KTable :=
  (ctors.filterMap id).foldl (fun m c => ktSet m (nm c) c) []

/-- Outcome of a converter call: a value, or a thrown exception (the
converters re-throw exceptions thrown by their own error handler). -/
inductive ConvOutcome (α : Type) where
  | ok (a : α)
  | throw (e : JSError)
deriving DecidableEq

/-- `TypedJSON.parse` lines 222-234, the try/catch around the converter: a
thrown error is passed to the configured error handler; if the handler
returns normally the call returns the partial result (`undefined`, i.e.
`none`, when the conversion never completed) and if the handler throws,
that exception propagates out of `parse`.  The second component records
the errors passed to the handler. -/
def parseTryCatch (convert : ConvOutcome TValue) (handler : Handler) :
    Except JSError (Option TValue × List JSError) :=
  match convert with
  | .ok v => .ok (some v, [])
  | .throw e =>
    match handler e with
    | none => .ok (none, [e])
    | some e2 => .error e2

/-- `TypedJSON.parse` (lines 203-235) with the modelled deserializer: the
known-types table is assembled from the instance state and the root
metadata, and the plain value (the JSON text being decoded by the external
codec primitive of spec section 1) is converted at the root constructor's
tag.  The modelled deserializer reports errors through the handler and
never throws, so the catch path (`parseTryCatch`) is not taken. -/
def parseRun (reg : Reg) (nm : Ctor → String) (st : InstState) (pv : PValue) :
    Option TValue :=
  let kt := parseKnownTypesTable reg nm st.globalKnownTypes st.rootConstructor
  some (deserializeValue reg nm kt pv (ctorToTag st.rootConstructor))

/-- The static convenience entry `TypedJSON.parse(json, rootType, settings)`
(lines 45-48): construct an instance — merging any ambient global
configuration — then parse. -/
def staticParse (reg : Reg) (nm : Ctor → String) (global : Option TJSettings)
    (root : Ctor) (settings : Option TJSettings) (handler : Handler) (pv : PValue) :
    Except JSError (Option TValue) :=
  match mkTypedJSON reg global root settings handler with
  | .error e => .error e
  | .ok st => .ok (parseRun reg nm st pv)

/-- JS `typeof` of a parsed JSON value (`typeof null` is `"object"`, and
arrays are objects). -/
def typeofPlain : PValue → String
  | .null => "object"
  | .num _ => "number"
  | .str _ => "string"
  | .bool _ => "boolean"
  | .arr _ => "object"
  | .obj _ => "object"

def arrayExpectedMsg (pv : PValue) : String :=
  "Expected 'json' to define an Array, but got " ++ typeofPlain pv ++ "."

/-- Both `parseAsSet` and `parseAsMap` report this message (the `parseAsMap`
branch reuses the Set wording, lines 272 and 294). -/
def setExpectedMsg (pv : PValue) : String :=
  "Expected 'json' to define a Set (using an Array), but got " ++ typeofPlain pv ++ "."

/-- `TypedJSON.parseAsArray` (lines 237-255): an array input is converted
as an array of the given dimension count over the root constructor, with
the `_mapKnownTypes` table over the instance known types; any other input
sends a `TypeError` to the error handler and an empty array is returned —
unless the handler throws, in which case the exception propagates (there
is no try/catch here).  The error list records the handler calls. -/
def parseAsArrayRun (reg : Reg) (nm : Ctor → String) (st : InstState)
    (handler : Handler) (dims : Nat) (pv : PValue) :
    Except JSError (TValue × List JSError) :=
  match pv with
  | .arr xs =>
    .ok (deserializeValue reg nm (mapKnownTypes nm st.globalKnownTypes) (.arr xs)
      (.arrayT (ctorToTag st.rootConstructor) dims), [])
  | _ =>
    match handler (.typeError (arrayExpectedMsg pv)) with
    | none => .ok (.arr [], [.typeError (arrayExpectedMsg pv)])
    | some e2 => .error e2

/-- `TypedJSON.parseAsSet` (lines 257-276), structured as `parseAsArray`
but converting to a Set and returning an empty set on a non-array input. -/
def parseAsSetRun (reg : Reg) (nm : Ctor → String) (st : InstState)
    (handler : Handler) (pv : PValue) :
    Except JSError (TValue × List JSError) :=
  match pv with
  | .arr xs =>
    .ok (deserializeValue reg nm (mapKnownTypes nm st.globalKnownTypes) (.arr xs)
      (.setT (ctorToTag st.rootConstructor)), [])
  | _ =>
    match handler (.typeError (setExpectedMsg pv)) with
    | none => .ok (.set [], [.typeError (setExpectedMsg pv)])
    | some e2 => .error e2

/-- `TypedJSON.parseAsMap` (lines 278-298), converting to a Map keyed by
`keyCtor` and returning an empty map on a non-array input. -/
def parseAsMapRun (reg : Reg) (nm : Ctor → String) (st : InstState)
    (handler : Handler) (keyCtor : Ctor) (pv : PValue) :
    Except JSError (TValue × List JSError) :=
  match pv with
  | .arr xs =>
    .ok (deserializeValue reg nm (mapKnownTypes nm st.globalKnownTypes) (.arr xs)
      (.mapT (ctorToTag keyCtor) (ctorToTag st.rootConstructor)), [])
  | _ =>
    match handler (.typeError (setExpectedMsg pv)) with
    | none => .ok (.map [], [.typeError (setExpectedMsg pv)])
    | some e2 => .error e2

/-! ## `JSON.stringify` model and the stringify entry points -/

/-- JSON string escaping of the quote and backslash characters. -/
def jsonEscapeChar (c : Char) : String :=
  if c = '"' then "\\\"" else if c = '\\' then "\\\\" else String.singleton c

def jsonQuote (s : String) : String :=
  "\"" ++ String.join (s.toList.map jsonEscapeChar) ++ "\""

mutual

/-- Model of the external `JSON.stringify` primitive on plain values (the
raw text codec of spec section 1), with no indentation and no replacer (the
facade defaults). -/
def jsonStringify : PValue → String
  | .null => "null"
  | .num n => toString n
  | .str s => jsonQuote s
  | .bool true => "true"
  | .bool false => "false"
  | .arr xs => "[" ++ jsonStringifyList xs ++ "]"
  | .obj fs => "\x7b" ++ jsonStringifyMembers fs ++ "\x7d"
termination_by p => sizeOf p

def jsonStringifyList : List PValue → String
  | [] => ""
  | [x] => jsonStringify x
  | x :: xs => jsonStringify x ++ "," ++ jsonStringifyList xs
termination_by xs => sizeOf xs

def jsonStringifyMembers : List (String × PValue) → String
  | [] => ""
  | [(k, v)] => jsonQuote k ++ ":" ++ jsonStringify v
  | (k, v) :: fs => jsonQuote k ++ ":" ++ jsonStringify v ++ "," ++ jsonStringifyMembers fs
termination_by fs => sizeOf fs

end

/-- The result of `TypedJSON.stringify`: `undefined`, or a string. -/
inductive StringifyOut where
  | undefinedOut
  | strOut (s : String)
deriving DecidableEq, Repr

/-- The message of the `TypeError` reported by `stringify` when the
argument is not an instance of the root constructor (line 311). -/
def notInstanceMsg (rootName objName : String) : String :=
  "Expected object type to be '" ++ rootName ++ "', got '" ++ objName ++ "'."

/-- The branch skeleton of `TypedJSON.stringify` (lines 305-329) with the
two resolved names taken as already-computed strings: in the instance
branch the serializer runs inside a try/catch — on success the JSON text
of the produced plain value is returned, and a thrown error goes to the
handler with the empty string as the fallback result; in the non-instance
branch a `TypeError` goes to the error handler and `undefined` is
returned, the serializer never running.  A throwing handler propagates the
exception in both places.  `isInstance` is the value of the
`object instanceof this.rootConstructor` test and `convert` the outcome of
`serializer.convertSingleValue`; the error list records the handler calls.
Taking `objName` as data presupposes that evaluating
`object.constructor` at line 311 succeeded; `stringifyRun` below models
that evaluation itself, which throws on a `null`/`undefined` argument
before this skeleton's non-instance branch is reached. -/
def stringifyTop (rootName objName : String) (isInstance : Bool)
    (convert : ConvOutcome PValue) (handler : Handler) :
    Except JSError (StringifyOut × List JSError) :=
  if isInstance then
    match convert with
    | .ok p => .ok (.strOut (jsonStringify p), [])
    | .throw e =>
      match handler e with
      | none => .ok (.strOut "", [e])
      | some e2 => .error e2
  else
    match handler (.typeError (notInstanceMsg rootName objName)) with
    | none => .ok (.undefinedOut, [.typeError (notInstanceMsg rootName objName)])
    | some e2 => .error e2

/-- The engine `TypeError` raised by the property access
`object.constructor` on `null`/`undefined` (its exact text is
engine-specific; one fixed text models it). -/
def nullishConstructorMsg : String := "Cannot read property of null or undefined."

/-- The resolved name of a defined argument's runtime constructor
(primitives box to their wrapper constructors); the value at `undef` is a
dummy, since `object.constructor` never evaluates there. -/
def runtimeCtorName : TValue → String
  | .undef => ""
  | .num _ => nameofDefault .number
  | .str _ => nameofDefault .string
  | .bool _ => nameofDefault .boolean
  | .inst c _ => nameofDefault (.cls c)
  | .arr _ => nameofDefault .array
  | .set _ => nameofDefault .set
  | .map _ => nameofDefault .map

/-- `Helpers.nameof(object.constructor)` as evaluated at line 311 while
the non-instance `TypeError` message is built: on a `null`/`undefined`
argument (`TValue.undef`) the property access `object.constructor` itself
throws a `TypeError`; on any other argument it yields the resolved name of
the runtime constructor. -/
def constructorNameOf : TValue → Except JSError String
  | .undef => .error (.typeError nullishConstructorMsg)
  | v => .ok (runtimeCtorName v)

theorem constructorNameOf_defined (object : TValue) (hdef : object ≠ TValue.undef) :
    constructorNameOf object = .ok (runtimeCtorName object) := by
  cases object <;> first | rfl | exact absurd rfl hdef

/-- `TypedJSON.stringify` (lines 305-329) over the actual argument
(`TValue.undef` standing for a `null`/`undefined` argument): `isInstance`
is the value of the `object instanceof this.rootConstructor` test (which
is false, without throwing, on `null`/`undefined`).  In the non-instance
branch the source first builds the error message, evaluating
`Helpers.nameof(this.rootConstructor)` and then
`Helpers.nameof(object.constructor)`: on a `null`/`undefined` argument the
latter property access throws a `TypeError` that propagates out of
`stringify` uncaught — the error handler is never called and `undefined`
is never returned there.  On a defined argument the branch proceeds as in
`stringifyTop`. -/
def stringifyRun (root : Ctor) (object : TValue) (isInstance : Bool)
    (convert : ConvOutcome PValue) (handler : Handler) :
    Except JSError (StringifyOut × List JSError) :=
  if isInstance then
    match convert with
    | .ok p => .ok (.strOut (jsonStringify p), [])
    | .throw e =>
      match handler e with
      | none => .ok (.strOut "", [e])
      | some e2 => .error e2
  else
    match constructorNameOf object with
    | .error e => .error e
    | .ok objName =>
      match handler (.typeError (notInstanceMsg (nameofDefault root) objName)) with
      | none =>
        .ok (.undefinedOut, [.typeError (notInstanceMsg (nameofDefault root) objName)])
      | some e2 => .error e2

/-- On a defined argument, `stringifyRun` agrees with the precomputed-name
skeleton `stringifyTop`. -/
theorem stringifyRun_defined (root : Ctor) (object : TValue) (isInstance : Bool)
    (convert : ConvOutcome PValue) (handler : Handler)
    (hdef : object ≠ TValue.undef) :
    stringifyRun root object isInstance convert handler =
      stringifyTop (nameofDefault root) (runtimeCtorName object) isInstance
        convert handler := by
  cases isInstance with
  | true => rfl
  | false =>
    simp only [stringifyRun, stringifyTop, constructorNameOf_defined object hdef,
      Bool.false_eq_true, if_false]

/-- `TypedJSON.stringifyAsSet` (lines 343-346) with the modelled
serializer: the set's elements are converted at the root constructor's tag
and the resulting array is JSON-stringified. -/
def stringifyAsSetRun (reg : Reg) (nm : Ctor → String) (st : InstState)
    (xs : List TValue) : String :=
  jsonStringify (.arr (serializeElements reg nm xs (ctorToTag st.rootConstructor)))

/-- `TypedJSON.stringifyAsMap` (lines 348-351) with the modelled
serializer: the map's `[key, value]` pairs are converted at the key
constructor's and root constructor's tags. -/
def stringifyAsMapRun (reg : Reg) (nm : Ctor → String) (st : InstState)
    (keyCtor : Ctor) (ps : List (TValue × TValue)) : String :=
  jsonStringify (.arr (serializePairs reg nm ps (ctorToTag keyCtor)
    (ctorToTag st.rootConstructor)))

/-! ## The `jsonMember` decorator
(`src/v1-experimental/typedjson/json-member.ts`) -/

/-- An injected member record (`JsonMemberMetadata` of `metadata.ts`,
restricted to the fields `jsonMember` assigns). -/
structure JsonMemberRecord where
  ctor : Ctor
  key : String
  name : String
  isRequired : Bool
  emitDefaultValue : Bool
deriving DecidableEq, Repr

/-- `isSpecialPropertyType` (json-member.ts lines 138-159): the container
builtins are rejected with an error message naming the dedicated decorator
to use instead. -/
def isSpecialPropertyType (propCtor : Ctor) : Bool :=
  propCtor = Ctor.array || propCtor = Ctor.set || propCtor = Ctor.map

/-- The error messages logged by `isSpecialPropertyType` for each container
builtin (and `[]` for a non-container constructor). -/
def specialPropertyErrors (propCtor : Ctor) (decoratorName : String) : List String :=
  if propCtor = Ctor.array then
    [decoratorName ++ ": property is an Array. Use the jsonArrayMember decorator to serialize this property."]
  else if propCtor = Ctor.set then
    [decoratorName ++ ": property is a Set. Use the jsonSetMember decorator to serialize this property."]
  else if propCtor = Ctor.map then
    [decoratorName ++ ": property is a Map. Use the jsonMapMember decorator to serialize this property."]
  else []

/-- The decorator-factory path of `jsonMember` (json-member.ts lines
75-135).  Because `typeof options.hasOwnProperty("constructor")` is the
truthy string `"function"`, the implementation always takes the
explicit-constructor branch; `optionsCtor` is the value of
`options.constructor` as evaluated there (`none` when it is
undefined/null, which `isValueDefined` rejects).  The result is the
injected member record (`none` = nothing injected) together with the
logged error messages. -/
def jsonMemberFactory (optionsCtor : Option Ctor) (isRequired emitDefaultValue : Bool)
    (propKey : String) (decoratorName : String) :
    Option JsonMemberRecord × List String :=
  match optionsCtor with
  | none =>
    (none, [decoratorName ++ ": cannot resolve specified property constructor at runtime."])
  | some propCtor =>
    if isSpecialPropertyType propCtor then
      (none, specialPropertyErrors propCtor decoratorName)
    else
      (some ⟨propCtor, propKey, propKey, isRequired, emitDefaultValue⟩, [])

/-- The direct-decorator path of `jsonMember` (json-member.ts lines 40-68):
the property constructor is obtained from ReflectDecorators when supported
(`reflectCtor`, `none` when unresolvable), the container builtins are
rejected, and the injected record carries the class defaults for
`isRequired`/`emitDefaultValue`. -/
def jsonMemberDirect (reflectSupported : Bool) (reflectCtor : Option Ctor)
    (propKey : String) (decoratorName : String) :
    Option JsonMemberRecord × List String :=
  if reflectSupported then
    match reflectCtor with
    | none =>
      (none, [decoratorName ++ ": could not resolve detected property constructor at runtime."])
    | some propCtor =>
      if isSpecialPropertyType propCtor then
        (none, specialPropertyErrors propCtor decoratorName)
      else
        (some ⟨propCtor, propKey, propKey, false, false⟩, [])
  else
    (none, [decoratorName ++ ": ReflectDecorators is required if no constructor option is specified."])

theorem toDigitsCore_length_le (b : Nat) :
    ∀ (f n : Nat) (l : List Char), l.length ≤ (Nat.toDigitsCore b f n l).length := by
  intro f
  induction f with
  | zero => intro n l; simp [Nat.toDigitsCore]
  | succ f ih =>
    intro n l
    simp only [Nat.toDigitsCore]
    split
    · simp
    · calc l.length ≤ (Nat.digitChar (n % b) :: l).length := by simp
        _ ≤ _ := ih _ _

theorem toDigitsCore_length_pos (b f n : Nat) (l : List Char) (hf : 0 < f) :
    l.length < (Nat.toDigitsCore b f n l).length := by
  cases f with
  | zero => omega
  | succ f =>
    simp only [Nat.toDigitsCore]
    split
    · simp
    · calc l.length < (Nat.digitChar (n % b) :: l).length := by simp
        _ ≤ _ := toDigitsCore_length_le b f _ _

theorem natRepr_length_pos (m : Nat) : 0 < (Nat.repr m).length := by
  have h1 := toDigitsCore_length_pos 10 (m + 1) m [] (Nat.succ_pos m)
  have h2 : (Nat.repr m).length = (Nat.toDigits 10 m).length := rfl
  simp only [List.length_nil] at h1
  rw [h2]
  exact h1

theorem intToString_length_pos (n : Int) : 0 < (toString n).length := by
  cases n with
  | ofNat m => exact natRepr_length_pos m
  | negSucc m =>
    show 0 < ("-" ++ toString (m + 1)).length
    have h1 : (toString (m + 1) : String) = Nat.repr (m + 1) := rfl
    rw [String.length_append, h1]
    have := natRepr_length_pos (m + 1)
    omega

theorem jsonStringify_length_pos (p : PValue) : 0 < (jsonStringify p).length := by
  cases p with
  | null => simp only [jsonStringify]; decide
  | num n => simp only [jsonStringify]; exact intToString_length_pos n
  | str s =>
    simp only [jsonStringify, jsonQuote]
    rw [String.length_append, String.length_append]
    have h1 : ("\"" : String).length = 1 := rfl
    omega
  | bool b => cases b <;> simp only [jsonStringify] <;> decide
  | arr xs =>
    simp only [jsonStringify]
    rw [String.length_append, String.length_append]
    have h1 : ("[" : String).length = 1 := rfl
    have h2 : ("]" : String).length = 1 := rfl
    omega
  | obj fs =>
    simp only [jsonStringify]
    rw [String.length_append, String.length_append]
    have h1 : ("\x7b" : String).length = 1 := rfl
    have h2 : ("\x7d" : String).length = 1 := rfl
    omega

theorem jsonStringify_ne_empty (p : PValue) : jsonStringify p ≠ "" := by
  intro h
  have := jsonStringify_length_pos p
  rw [h] at this
  simp at this

/-! ## Claims -/

/-- C1: For every instance of a registered class none of whose fields is
polymorphic — well-typedness (`wtValue`) requires every nested instance's
runtime class to equal its statically expected, registered class —
deserializing the plain value produced by serializing the instance with
the same root type yields the instance back, its fields equal field by
field (here: equal as ordered field lists), under a well-formed registry
(distinct member keys, distinct serialized names, no serialized name equal
to the reserved `__type` key). -/
theorem roundtrip_fieldwise (reg : Reg) (nm : Ctor → String) (kt : KTable)
    (c : Nat) (fs : List (String × TValue))
    (hreg : regWF reg = true)
    (hwt : wtValue reg (.inst c fs) (.object c) = true) :
    deserializeValue reg nm kt (serializeValue reg nm (.inst c fs) (.object c))
      (.object c) = .inst c fs :=
  roundtripValue reg nm kt hreg (.inst c fs) (.object c) hwt

/-- A two-member registered class used as a concrete witness registry. -/
def regW1 : Reg :=
  [(0, ClassMeta.mk true
    [MemberMeta.mk "x" "x" TypeTag.num true false,
     MemberMeta.mk "s" "lbl" TypeTag.str false false]
    [])]

theorem roundtrip_fieldwise_witness :
    regWF regW1 = true ∧
    wtValue regW1 (.inst 0 [("x", .num 5), ("s", .str "hi")]) (.object 0) = true ∧
    deserializeValue regW1 nameofDefault [] (serializeValue regW1 nameofDefault
      (.inst 0 [("x", .num 5), ("s", .str "hi")]) (.object 0)) (.object 0)
      = .inst 0 [("x", .num 5), ("s", .str "hi")] :=
  ⟨by decide,
   by simp [wtValue, wtMembers, regGet, regW1, List.find?],
   roundtrip_fieldwise regW1 nameofDefault [] 0 [("x", .num 5), ("s", .str "hi")]
     (by decide)
     (by simp [wtValue, wtMembers, regGet, regW1, List.find?])⟩

/-- A registry with a root class `0` that declares the known subtype
`Class1`, used to separate the two table-assembly algorithms. -/
def regW2 : Reg :=
  [(0, ClassMeta.mk true [] [Ctor.cls 1]), (1, ClassMeta.mk true [] [])]

/-- C2 counterexample: with a registered root whose metadata carries a
known subtype and no globally configured known types, the table `parse`
assembles (lines 205-220) differs from the table the array/set/map
variants assemble (`_mapKnownTypes` over the global known types only,
lines 246, 267, 288) — the specialized variants do not merge the root
class's known subtypes, so they do not use the same table-assembly
algorithm as `parse`. -/
theorem variant_table_differs_cex :
    parseKnownTypesTable regW2 nameofDefault [] (Ctor.cls 0)
      ≠ mapKnownTypes nameofDefault [] := by
  decide

/-- C2 amended: `parse` assembles its per-call table by inserting the
global known types and then the root metadata's known subtypes, the root
entries shadowing global entries on a name collision; `parseAsArray`,
`parseAsSet` and `parseAsMap` instead all assemble their tables with the
one `_mapKnownTypes` algorithm over the globally configured known types
only (no root known subtypes), differing from one another only in the
top-level type-tag shape handed to the deserializer. -/
theorem knownTypes_table_assembly (reg : Reg) (nm : Ctor → String)
    (global : List (Option Ctor)) (root : Ctor) (s : String) :
    (ktGet (parseKnownTypesTable reg nm global root) s =
      match getFromConstructor reg root with
      | some meta =>
        (match meta.knownTypes.reverse.find? (fun c => nm c = s) with
         | some c => some c
         | none => ktGet (mapKnownTypes nm global) s)
      | none => ktGet (mapKnownTypes nm global) s) ∧
    (∀ st handler dims xs,
      parseAsArrayRun reg nm st handler dims (.arr xs) =
        .ok (deserializeValue reg nm (mapKnownTypes nm st.globalKnownTypes) (.arr xs)
          (.arrayT (ctorToTag st.rootConstructor) dims), [])) ∧
    (∀ st handler xs,
      parseAsSetRun reg nm st handler (.arr xs) =
        .ok (deserializeValue reg nm (mapKnownTypes nm st.globalKnownTypes) (.arr xs)
          (.setT (ctorToTag st.rootConstructor)), [])) ∧
    (∀ st handler keyCtor xs,
      parseAsMapRun reg nm st handler keyCtor (.arr xs) =
        .ok (deserializeValue reg nm (mapKnownTypes nm st.globalKnownTypes) (.arr xs)
          (.mapT (ctorToTag keyCtor) (ctorToTag st.rootConstructor)), [])) := by
  refine ⟨?_, fun st handler dims xs => rfl, fun st handler xs => rfl,
    fun st handler keyCtor xs => rfl⟩
  cases hr : getFromConstructor reg root with
  | some meta =>
    simp only [parseKnownTypesTable, hr]
    rw [ktGet_foldl_ktSet]
    rfl
  | none =>
    simp only [parseKnownTypesTable, mapKnownTypes, hr]

/-- A constant name resolver sending every constructor to one name. -/
def nmConst : Ctor → String := fun _ => "X"

/-- C3 counterexample: two distinct constructors resolve to the same name
in one known-types table, and the assembled table silently maps that name
to the later constructor — no error condition of any kind is raised or
recorded by the table assembly, so no `AmbiguousTypeName` is reported. -/
theorem ambiguous_name_shadow_cex :
    ktGet (mapKnownTypes nmConst [some (Ctor.cls 0), some (Ctor.cls 1)]) "X"
      = some (Ctor.cls 1) ∧ Ctor.cls 0 ≠ Ctor.cls 1 := by
  exact ⟨by decide, by decide⟩

/-- C3 amended: when the known-types table maps one resolved name to
several constructors, the later entry silently overwrites the earlier one:
the lookup of a name returns exactly the most recently inserted
constructor resolving to it (and nothing is reported). -/
theorem knownTypes_last_registration_wins (nm : Ctor → String)
    (ctors : List (Option Ctor)) (s : String) :
    ktGet (mapKnownTypes nm ctors) s =
      (ctors.filterMap id).reverse.find? (fun c => nm c = s) := by
  unfold mapKnownTypes
  rw [ktGet_foldl_ktSet]
  cases h : (ctors.filterMap id).reverse.find? (fun c => nm c = s) <;> simp [ktGet]

/-- C4: a root constructor with no class metadata, or whose metadata is
not explicitly marked as registered, makes the construction of the
converter throw a `TypeError` immediately (`Except.error`, i.e. a thrown
exception), whatever the ambient global configuration, the explicit
settings and the configured error handler — in particular, since the
result does not depend on `handler`, this error is never deferred to the
error handler. -/
theorem unregistered_root_throws (reg : Reg) (global : Option TJSettings)
    (root : Ctor) (settings : Option TJSettings) (handler : Handler)
    (h : getFromConstructor reg root = none ∨
      ∃ m, getFromConstructor reg root = some m ∧ m.isExplicitlyMarked = false) :
    mkTypedJSON reg global root settings handler =
      .error (.typeError rootTypeErrorMsg) := by
  rcases h with h | ⟨m, hm, hmark⟩
  · simp [mkTypedJSON, h]
  · simp [mkTypedJSON, hm, hmark]

theorem unregistered_root_throws_witness :
    (getFromConstructor [] (Ctor.cls 0) = none ∨
      ∃ m, getFromConstructor [] (Ctor.cls 0) = some m ∧ m.isExplicitlyMarked = false) ∧
    mkTypedJSON [] none (Ctor.cls 0) none (fun _ => none) =
      .error (.typeError rootTypeErrorMsg) :=
  ⟨Or.inl (by decide),
   unregistered_root_throws [] none (Ctor.cls 0) none (fun _ => none) (Or.inl (by decide))⟩

/-- C5: a non-fatal error thrown during a top-level `parse` or `stringify`
is passed to the configured error handler; when the handler returns
normally, the call returns its best-effort partial result (`undefined` for
`parse`, whose conversion never completed; the empty string for
`stringify`) with the handled error recorded, and when the handler throws,
that exception propagates out of the top-level call.  A conversion whose
errors were all handled inside the converter returns its (partial) value
untouched. -/
theorem nonfatal_error_funnel (e e2 : JSError) (handler : Handler)
    (rootName objName : String) (v : TValue) :
    (parseTryCatch (.ok v) handler = .ok (some v, [])) ∧
    (handler e = none →
      parseTryCatch (.throw e) handler = .ok (none, [e])) ∧
    (handler e = some e2 →
      parseTryCatch (.throw e) handler = .error e2) ∧
    (handler e = none →
      stringifyTop rootName objName true (.throw e) handler = .ok (.strOut "", [e])) ∧
    (handler e = some e2 →
      stringifyTop rootName objName true (.throw e) handler = .error e2) := by
  refine ⟨rfl, ?_, ?_, ?_, ?_⟩ <;> intro h <;> simp [parseTryCatch, stringifyTop, h]

theorem nonfatal_error_funnel_witness :
    ((fun _ => none : Handler) (.error "boom") = none →
      parseTryCatch (.throw (.error "boom")) (fun _ => none)
        = .ok (none, [.error "boom"])) ∧
    ((fun _ => some (.error "again") : Handler) (.error "boom") = some (.error "again") →
      stringifyTop "R" "O" true (.throw (.error "boom")) (fun _ => some (.error "again"))
        = .error (.error "again")) :=
  ⟨(nonfatal_error_funnel (.error "boom") (.error "again") (fun _ => none) "R" "O"
      .undef).2.1,
   (nonfatal_error_funnel (.error "boom") (.error "again")
      (fun _ => some (.error "again")) "R" "O" .undef).2.2.2.2⟩

/-- C6: a property whose resolved constructor is one of the container
builtins `Array`, `Set`, `Map` is rejected by `jsonMember` at registration
time on both decorator paths: an error message is logged and no member
record is injected into the class metadata; consequently, an injected
`jsonMember` record (an Object-shaped member, as opposed to the container
member decorators) never carries a container builtin constructor. -/
theorem jsonMember_rejects_containers :
    (∀ (c : Ctor) (req emit : Bool) (key dn : String), isSpecialPropertyType c = true →
      (jsonMemberFactory (some c) req emit key dn).1 = none ∧
      (jsonMemberFactory (some c) req emit key dn).2 ≠ []) ∧
    (∀ (c : Ctor) (key dn : String), isSpecialPropertyType c = true →
      (jsonMemberDirect true (some c) key dn).1 = none ∧
      (jsonMemberDirect true (some c) key dn).2 ≠ []) ∧
    (∀ (oc : Option Ctor) (req emit : Bool) (key dn : String) (md : JsonMemberRecord),
      (jsonMemberFactory oc req emit key dn).1 = some md →
      isSpecialPropertyType md.ctor = false) ∧
    (∀ (rs : Bool) (rc : Option Ctor) (key dn : String) (md : JsonMemberRecord),
      (jsonMemberDirect rs rc key dn).1 = some md →
      isSpecialPropertyType md.ctor = false) := by
  refine ⟨?_, ?_, ?_, ?_⟩
  · intro c req emit key dn h
    cases c <;> simp [isSpecialPropertyType] at h <;>
      simp [jsonMemberFactory, isSpecialPropertyType, specialPropertyErrors]
  · intro c key dn h
    cases c <;> simp [isSpecialPropertyType] at h <;>
      simp [jsonMemberDirect, isSpecialPropertyType, specialPropertyErrors]
  · intro oc req emit key dn md h
    cases oc with
    | none => simp [jsonMemberFactory] at h
    | some c =>
      by_cases hs : isSpecialPropertyType c = true
      · simp [jsonMemberFactory, hs] at h
      · simp [jsonMemberFactory, hs] at h
        rw [← h]
        simpa using hs
  · intro rs rc key dn md h
    cases rs with
    | false => simp [jsonMemberDirect] at h
    | true =>
      cases rc with
      | none => simp [jsonMemberDirect] at h
      | some c =>
        by_cases hs : isSpecialPropertyType c = true
        · simp [jsonMemberDirect, hs] at h
        · simp [jsonMemberDirect, hs] at h
          rw [← h]
          simpa using hs

theorem jsonMember_rejects_containers_witness :
    isSpecialPropertyType Ctor.set = true ∧
    (jsonMemberFactory (some Ctor.set) false false "members" "@jsonMember on C.members").1
      = none ∧
    (jsonMemberFactory (some Ctor.set) false false "members" "@jsonMember on C.members").2
      ≠ [] :=
  ⟨by decide,
   (jsonMember_rejects_containers.1 Ctor.set false false "members"
      "@jsonMember on C.members" (by decide)).1,
   (jsonMember_rejects_containers.1 Ctor.set false false "members"
      "@jsonMember on C.members" (by decide)).2⟩

/-- C7: the container examples.  The raw JSON text codec is the external
primitive of spec section 1 (text and plain value tree correspond through
it): on the stringify side the modelled `JSON.stringify` produces the
claimed texts, and on the parse side the claimed texts appear as their
decoded plain values (`"[1,2,3]"` as the plain array `[1,2,3]`, and
`"[[\"a\",1]]"` as `[["a",1]]`).  The set round-trips to exactly the
elements 1, 2, 3 and the map to exactly the binding of `"a"` to 1. -/
theorem container_examples :
    stringifyAsSetRun [] nameofDefault ⟨Ctor.number, [], 0⟩ [.num 1, .num 2, .num 3]
      = "[1,2,3]" ∧
    parseAsSetRun [] nameofDefault ⟨Ctor.number, [], 0⟩ (fun _ => none)
      (.arr [.num 1, .num 2, .num 3])
      = .ok (.set [.num 1, .num 2, .num 3], []) ∧
    stringifyAsMapRun [] nameofDefault ⟨Ctor.number, [], 0⟩ Ctor.string
      [(.str "a", .num 1)] = "[[\"a\",1]]" ∧
    parseAsMapRun [] nameofDefault ⟨Ctor.number, [], 0⟩ (fun _ => none) Ctor.string
      (.arr [.arr [.str "a", .num 1]])
      = .ok (.map [(.str "a", .num 1)], []) := by
  refine ⟨?_, ?_, ?_, ?_⟩
  · simp only [stringifyAsSetRun, serializeElements, serializeValue, ctorToTag,
      jsonStringify, jsonStringifyList]
    rfl
  · simp [parseAsSetRun, deserializeValue, deserializeElements, ctorToTag, mapKnownTypes,
      insertUniq, List.foldl]
  · simp only [stringifyAsMapRun, serializePairs, serializeValue, ctorToTag,
      jsonStringify, jsonStringifyList, jsonQuote]
    rfl
  · simp [parseAsMapRun, deserializeValue, deserializeMapEntries, ctorToTag, mapKnownTypes,
      mapInsert]

/-- A registry with two registered classes and no members, for observing
the effect of the ambient global configuration. -/
def regW8 : Reg := [(0, ClassMeta.mk true [] []), (1, ClassMeta.mk true [] [])]

/-- A global configuration registering `Class1` as a known type. -/
def gW8 : TJSettings := ⟨none, some [some (Ctor.cls 1)]⟩

/-- A plain object carrying a type hint that only resolves when the global
known types were merged in. -/
def pvW8 : PValue := .obj [(typeHintKey, .str "Class1")]

/-- C8 counterexample: two invocations of the same conversion entry point
(the static `TypedJSON.parse`) with identical explicit arguments and
identical (absent) per-instance settings return different results
depending on whether `setGlobalConfig` installed a global configuration
beforehand: without it the type hint `"Class1"` is unresolvable and the
conversion yields `undefined`; with it the hint resolves and an instance
of class 1 is produced.  Ambient global mutable configuration state does
influence conversions. -/
theorem global_config_influences_cex :
    staticParse regW8 nameofDefault none (Ctor.cls 0) none (fun _ => none) pvW8 ≠
    staticParse regW8 nameofDefault (some gW8) (Ctor.cls 0) none (fun _ => none) pvW8 := by
  have h1 : staticParse regW8 nameofDefault none (Ctor.cls 0) none (fun _ => none) pvW8
      = .ok (some .undef) := by
    simp [staticParse, mkTypedJSON, getFromConstructor, regGet, regW8, parseRun,
      parseKnownTypesTable, ctorToTag, deserializeValue, resolveCtorDefault,
      lookupPlain, pvW8, typeHintKey, ktGet, List.find?]
  have hname : nameofDefault (Ctor.cls 1) = "Class1" := by decide
  have h2 : staticParse regW8 nameofDefault (some gW8) (Ctor.cls 0) none (fun _ => none) pvW8
      = .ok (some (.inst 1 [])) := by
    simp [staticParse, mkTypedJSON, getFromConstructor, regGet, regW8, parseRun,
      configTJ, applySettings, mergeSettings, emptySettings, dedupKeepFirst, gW8,
      parseKnownTypesTable, ctorToTag, deserializeValue, deserializeMembers,
      resolveCtorDefault, lookupPlain, pvW8, typeHintKey, ktGet, ktSet,
      hname, List.find?, List.foldl, List.filterMap]
  rw [h1, h2]
  simp

/-- C8 amended: the global configuration installed by `setGlobalConfig`
does influence conversions — it is merged beneath the explicit settings
when a converter is constructed.  Its influence is exactly that of
threading the merged configuration struct explicitly: constructing under
a global configuration equals constructing with no global state and the
explicitly merged settings (with `config({})` when no explicit settings
were passed).  The merge takes explicit fields over global ones, except
`knownTypes`, which is unioned with keep-first de-duplication (the global
list de-duplicating against itself when only it is present).  Two
invocations with identical explicit arguments and an unchanged global
configuration therefore give equal results. -/
theorem global_config_merge_equiv (reg : Reg) (g s : TJSettings) (root : Ctor)
    (handler : Handler) :
    (mkTypedJSON reg (some g) root (some s) handler =
      mkTypedJSON reg none root (some (mergeSettings g s)) handler) ∧
    (mkTypedJSON reg (some g) root none handler =
      mkTypedJSON reg none root (some (mergeSettings g emptySettings)) handler) ∧
    ((mergeSettings g s).indent
      = match s.indent with | some i => some i | none => g.indent) ∧
    ((mergeSettings g s).knownTypes =
      match s.knownTypes, g.knownTypes with
      | some a, some b => some (dedupKeepFirst (a ++ b))
      | some a, none => some a
      | none, some b => some (dedupKeepFirst (b ++ b))
      | none, none => none) := by
  obtain ⟨gi, gk⟩ := g
  obtain ⟨si, sk⟩ := s
  refine ⟨?_, ?_, ?_, ?_⟩
  · cases hr : getFromConstructor reg root with
    | none => simp [mkTypedJSON, hr]
    | some m => cases hm : m.isExplicitlyMarked <;> simp [mkTypedJSON, hr, hm, configTJ]
  · cases hr : getFromConstructor reg root with
    | none => simp [mkTypedJSON, hr]
    | some m => cases hm : m.isExplicitlyMarked <;> simp [mkTypedJSON, hr, hm, configTJ]
  · cases si <;> simp [mergeSettings]
  · cases si <;> cases sk <;> cases gk <;> simp [mergeSettings]

/-- C9 counterexample: `undefined` is a non-instance argument on which
`stringify` neither passes a `TypeError` to the configured error handler
nor returns `undefined`: while the error message of line 311 is being
built, the property access `object.constructor` itself throws a
`TypeError` that propagates out of `stringify` uncaught — the call ends in
a thrown error with no handler call recorded, never reaching the
`return undefined`. -/
theorem stringify_nullish_throws_cex :
    stringifyRun Ctor.number TValue.undef false (.ok (.num 0)) (fun _ => none)
      = .error (.typeError nullishConstructorMsg) ∧
    ∀ l, stringifyRun Ctor.number TValue.undef false (.ok (.num 0)) (fun _ => none)
      ≠ .ok (.undefinedOut, l) := by
  have h1 : stringifyRun Ctor.number TValue.undef false (.ok (.num 0)) (fun _ => none)
      = .error (.typeError nullishConstructorMsg) := rfl
  refine ⟨h1, ?_⟩
  intro l h
  rw [h1] at h
  exact Except.noConfusion h

/-- C9 amended: for a non-instance argument that is defined (not
`null`/`undefined`), `stringify` passes the `TypeError` naming the
expected and actual constructors to the configured error handler and —
when the handler returns normally — returns `undefined` (`undefinedOut`,
not a string of any kind), the serializer outcome playing no part in the
result, while a throwing handler propagates; for a `null`/`undefined`
argument the `TypeError` thrown at line 311 while evaluating
`object.constructor` for the message propagates out of `stringify` before
the handler is ever called; and the only way `stringify` returns the
empty string is an error thrown during serialization itself and handled
without re-throw. -/
theorem stringify_nonInstance_defined (root : Ctor) (object : TValue)
    (convert convert2 : ConvOutcome PValue) (handler : Handler)
    (hdef : object ≠ TValue.undef) :
    (handler (.typeError (notInstanceMsg (nameofDefault root) (runtimeCtorName object)))
        = none →
      stringifyRun root object false convert handler =
        .ok (.undefinedOut,
          [.typeError (notInstanceMsg (nameofDefault root) (runtimeCtorName object))])) ∧
    (∀ e2, handler (.typeError (notInstanceMsg (nameofDefault root)
        (runtimeCtorName object))) = some e2 →
      stringifyRun root object false convert handler = .error e2) ∧
    (stringifyRun root object false convert handler =
      stringifyRun root object false convert2 handler) ∧
    (∀ s l, stringifyRun root object false convert handler ≠ .ok (.strOut s, l)) ∧
    (stringifyRun root TValue.undef false convert handler
      = .error (.typeError nullishConstructorMsg)) ∧
    (∀ (isInstance : Bool) (l : List JSError),
      stringifyRun root object isInstance convert handler = .ok (.strOut "", l) →
      isInstance = true ∧ ∃ e, convert = .throw e ∧ handler e = none ∧ l = [e]) := by
  have hcn := constructorNameOf_defined object hdef
  refine ⟨?_, ?_, ?_, ?_, rfl, ?_⟩
  · intro h
    simp [stringifyRun, hcn, h]
  · intro e2 h
    simp [stringifyRun, hcn, h]
  · simp [stringifyRun]
  · intro s l
    simp only [stringifyRun, Bool.false_eq_true, if_false, hcn]
    cases hh : handler (.typeError (notInstanceMsg (nameofDefault root)
        (runtimeCtorName object))) <;> simp
  · intro isInstance l h
    cases isInstance with
    | false =>
      simp only [stringifyRun, Bool.false_eq_true, if_false, hcn] at h
      cases hh : handler (.typeError (notInstanceMsg (nameofDefault root)
          (runtimeCtorName object))) <;> rw [hh] at h <;> simp at h
    | true =>
      refine ⟨rfl, ?_⟩
      simp only [stringifyRun, if_true] at h
      cases convert with
      | ok p =>
        simp only [Except.ok.injEq, Prod.mk.injEq, StringifyOut.strOut.injEq] at h
        exact absurd h.1 (jsonStringify_ne_empty p)
      | throw e =>
        have h2 : (match handler e with
            | none => Except.ok (StringifyOut.strOut "", [e])
            | some e2 => (Except.error e2 : Except JSError (StringifyOut × List JSError)))
            = Except.ok (StringifyOut.strOut "", l) := h
        cases hh : handler e with
        | none =>
          rw [hh] at h2
          simp only [Except.ok.injEq, Prod.mk.injEq] at h2
          exact ⟨e, rfl, hh, h2.2.symm⟩
        | some e2 =>
          rw [hh] at h2
          simp at h2

theorem stringify_nonInstance_defined_witness :
    (TValue.num 3 ≠ TValue.undef) ∧
    ((fun _ => none : Handler) (.typeError (notInstanceMsg (nameofDefault (Ctor.cls 0))
        (runtimeCtorName (TValue.num 3)))) = none →
      stringifyRun (Ctor.cls 0) (TValue.num 3) false (.ok (.num 0)) (fun _ => none) =
        .ok (.undefinedOut, [.typeError (notInstanceMsg (nameofDefault (Ctor.cls 0))
          (runtimeCtorName (TValue.num 3)))])) :=
  ⟨fun h => TValue.noConfusion h,
   (stringify_nonInstance_defined (Ctor.cls 0) (TValue.num 3) (.ok (.num 0))
      (.throw (.error "boom")) (fun _ => none) (fun h => TValue.noConfusion h)).1⟩

/-- C10: a parsed plain value that is not an array makes `parseAsArray`,
`parseAsSet` and `parseAsMap` each pass a `TypeError` to the configured
error handler and — when the handler returns normally — return the empty
array, the empty set and the empty map respectively: always a container
value, never `undefined` (the result type of the model carries no
`undefined`, and the returned container is exactly the empty one). -/
theorem parse_variants_nonArray (reg : Reg) (nm : Ctor → String) (st : InstState)
    (handler : Handler) (dims : Nat) (keyCtor : Ctor) (pv : PValue)
    (hnotarr : ∀ xs, pv ≠ .arr xs) :
    (handler (.typeError (arrayExpectedMsg pv)) = none →
      parseAsArrayRun reg nm st handler dims pv
        = .ok (.arr [], [.typeError (arrayExpectedMsg pv)])) ∧
    (handler (.typeError (setExpectedMsg pv)) = none →
      parseAsSetRun reg nm st handler pv
        = .ok (.set [], [.typeError (setExpectedMsg pv)])) ∧
    (handler (.typeError (setExpectedMsg pv)) = none →
      parseAsMapRun reg nm st handler keyCtor pv
        = .ok (.map [], [.typeError (setExpectedMsg pv)])) := by
  refine ⟨?_, ?_, ?_⟩ <;> intro h <;>
    cases pv <;> first
      | exact absurd rfl (hnotarr _)
      | simp [parseAsArrayRun, parseAsSetRun, parseAsMapRun, h]

theorem parse_variants_nonArray_witness :
    (∀ xs, (PValue.num 0) ≠ .arr xs) ∧
    ((fun _ => none : Handler) (.typeError (setExpectedMsg (.num 0))) = none →
      parseAsSetRun [] nameofDefault ⟨Ctor.number, [], 0⟩ (fun _ => none) (.num 0)
        = .ok (.set [], [.typeError (setExpectedMsg (.num 0))])) :=
  ⟨fun _ h => PValue.noConfusion h,
   (parse_variants_nonArray [] nameofDefault ⟨Ctor.number, [], 0⟩ (fun _ => none) 1
      Ctor.number (.num 0) (fun _ h => PValue.noConfusion h)).2.1⟩
